import Mathlib

/-!
Verification of the vendir git/hg fetch-and-sync engine.

The definitions below are a shallow embedding of the two backend adapters
(`pkg/vendir/fetch/git/{git.go,sync.go}` and `pkg/vendir/fetch/hg/{hg.go,sync.go}`).
External effects (temp-dir creation, file writes, process invocations, cache
operations, directory removal/rename) are mediated by a `World` oracle that
decides each operation's outcome, and every operation is recorded in an event
trace, so properties about "which commands ran" and "what was written or
removed" are properties of the trace.
-/

namespace Vendir

/-- Errors are modelled as their message strings (the Go code uses
`fmt.Errorf` throughout; no structured error type exists in the source). -/
abbrev Err := String

/-! ## SHA-256

The cache id of both backends is computed with Go's `crypto/sha256`
(`hg.go` `setup`, and `sync.go` of the git package). That library is not part
of this repository, so the function is modelled here from its public
specification (FIPS 180-4), executably, over byte lists represented as `Nat`
lists (each element a byte value). Word arithmetic is `Nat` arithmetic
reduced modulo `2^32`. -/

/-- Reduce a number to a 32-bit word. -/
def w32 (x : Nat) : Nat := x % 4294967296

/-- Right-rotation of a 32-bit word, written with division and
multiplication: for `x < 2^32` and `0 < n ≤ 32`, `(x / 2^n + x * 2^(32-n))`
is congruent mod `2^32` to the usual `(x >>> n) ||| (x <<< (32-n))`. -/
def rotr32 (n x : Nat) : Nat := w32 (x / 2 ^ n + x * 2 ^ (32 - n))

/-- FIPS 180-4 `Ch(x,y,z)`; the complement of a 32-bit word `x` is
`4294967295 - x`. -/
def ch32 (x y z : Nat) : Nat := Nat.xor (x &&& y) ((4294967295 - w32 x) &&& z)

/-- FIPS 180-4 `Maj(x,y,z)`. -/
def maj32 (x y z : Nat) : Nat := Nat.xor (Nat.xor (x &&& y) (x &&& z)) (y &&& z)

/-- FIPS 180-4 `Σ0`. -/
def bigSigma0 (x : Nat) : Nat := Nat.xor (Nat.xor (rotr32 2 x) (rotr32 13 x)) (rotr32 22 x)

/-- FIPS 180-4 `Σ1`. -/
def bigSigma1 (x : Nat) : Nat := Nat.xor (Nat.xor (rotr32 6 x) (rotr32 11 x)) (rotr32 25 x)

/-- FIPS 180-4 `σ0`. -/
def smallSigma0 (x : Nat) : Nat := Nat.xor (Nat.xor (rotr32 7 x) (rotr32 18 x)) (x / 2 ^ 3)

/-- FIPS 180-4 `σ1`. -/
def smallSigma1 (x : Nat) : Nat := Nat.xor (Nat.xor (rotr32 17 x) (rotr32 19 x)) (x / 2 ^ 10)

/-- The 64 SHA-256 round constants. -/
def sha256K : List Nat :=
  [1116352408, 1899447441, 3049323471, 3921009573, 961987163, 1508970993,
   2453635748, 2870763221, 3624381080, 310598401, 607225278, 1426881987,
   1925078388, 2162078206, 2614888103, 3248222580, 3835390401, 4022224774,
   264347078, 604807628, 770255983, 1249150122, 1555081692, 1996064986,
   2554220882, 2821834349, 2952996808, 3210313671, 3336571891, 3584528711,
   113926993, 338241895, 666307205, 773529912, 1294757372, 1396182291,
   1695183700, 1986661051, 2177026350, 2456956037, 2730485921, 2820302411,
   3259730800, 3345764771, 3516065817, 3600352804, 4094571909, 275423344,
   430227734, 506948616, 659060556, 883997877, 958139571, 1322822218,
   1537002063, 1747873779, 1955562222, 2024104815, 2227730452, 2361852424,
   2428436474, 2756734187, 3204031479, 3329325298]

/-- The eight 32-bit words of a SHA-256 hash state. -/
structure Hash8 where
  h0 : Nat
  h1 : Nat
  h2 : Nat
  h3 : Nat
  h4 : Nat
  h5 : Nat
  h6 : Nat
  h7 : Nat
deriving DecidableEq

/-- The SHA-256 initial hash value. -/
def sha256Init : Hash8 :=
  ⟨0x6a09e667, 0xbb67ae85, 0x3c6ef372, 0xa54ff53a, 0x510e527f, 0x9b05688c, 0x1f83d9ab, 0x5be0cd19⟩

/-- The eight working registers of the compression loop. -/
structure Regs where
  a : Nat
  b : Nat
  c : Nat
  d : Nat
  e : Nat
  f : Nat
  g : Nat
  h : Nat

/-- One round of the SHA-256 compression loop, consuming one
(round-constant, schedule-word) pair. -/
def roundStep (r : Regs) (kw : Nat × Nat) : Regs :=
  let t1 := w32 (r.h + bigSigma1 r.e + ch32 r.e r.f r.g + kw.1 + kw.2)
  let t2 := w32 (bigSigma0 r.a + maj32 r.a r.b r.c)
  { a := w32 (t1 + t2), b := r.a, c := r.b, d := r.c,
    e := w32 (r.d + t1), f := r.e, g := r.f, h := r.g }

/-- Extend a 16-word message block by `n` schedule words. -/
def scheduleExtend (ws : List Nat) : Nat → List Nat
  | 0 => ws
  | n + 1 =>
    let prev := scheduleExtend ws n
    let i := prev.length
    prev ++ [w32 (smallSigma1 (prev.getD (i - 2) 0) + prev.getD (i - 7) 0 +
      smallSigma0 (prev.getD (i - 15) 0) + prev.getD (i - 16) 0)]

/-- The SHA-256 compression function applied to one 16-word block. -/
def sha256Compress (hs : Hash8) (block : List Nat) : Hash8 :=
  let ws := scheduleExtend block 48
  let r0 : Regs := ⟨hs.h0, hs.h1, hs.h2, hs.h3, hs.h4, hs.h5, hs.h6, hs.h7⟩
  let r := (sha256K.zip ws).foldl roundStep r0
  { h0 := w32 (hs.h0 + r.a), h1 := w32 (hs.h1 + r.b), h2 := w32 (hs.h2 + r.c),
    h3 := w32 (hs.h3 + r.d), h4 := w32 (hs.h4 + r.e), h5 := w32 (hs.h5 + r.f),
    h6 := w32 (hs.h6 + r.g), h7 := w32 (hs.h7 + r.h) }

/-- `k` bytes of `n`, big-endian. -/
def beBytes : Nat → Nat → List Nat
  | 0, _ => []
  | k + 1, n => beBytes k (n / 256) ++ [n % 256]

/-- SHA-256 padding: append `0x80`, zero bytes up to 56 mod 64, then the
bit length as 8 big-endian bytes. -/
def sha256Pad (msg : List Nat) : List Nat :=
  msg ++ [128] ++ List.replicate ((119 - msg.length % 64) % 64) 0 ++ beBytes 8 (8 * msg.length)

/-- Split a list into `k`-element groups, with enough fuel to finish;
structural recursion on the fuel keeps the definition kernel-reducible. -/
def chunksFuel (k : Nat) : Nat → List Nat → List (List Nat)
  | 0, _ => []
  | _ + 1, [] => []
  | fuel + 1, l => l.take k :: chunksFuel k fuel (l.drop k)

/-- Split a byte list into 64-byte blocks. -/
def chunks64 (l : List Nat) : List (List Nat) := chunksFuel 64 l.length l

/-- Split a byte list into 4-byte groups. -/
def chunks4 (l : List Nat) : List (List Nat) := chunksFuel 4 l.length l

/-- Big-endian 32-bit words of a 64-byte block. -/
def wordsOfBlock (block : List Nat) : List Nat :=
  (chunks4 block).map (fun c => c.foldl (fun a b => a * 256 + b) 0)

/-- The eight 32-bit digest words of a byte message. -/
def sha256WordList (msg : List Nat) : List Nat :=
  let blocks := (chunks64 (sha256Pad msg)).map wordsOfBlock
  let final := blocks.foldl sha256Compress sha256Init
  [final.h0, final.h1, final.h2, final.h3, final.h4, final.h5, final.h6, final.h7]

/-- The 32 digest bytes of a byte message. -/
def sha256ByteList (msg : List Nat) : List Nat :=
  ((sha256WordList msg).map (beBytes 4)).flatten

/-- Lower-case hex digit of a value below 16. -/
def hexDigit (n : Nat) : Char :=
  if n < 10 then Char.ofNat (48 + n) else Char.ofNat (87 + n)

/-- Two lower-case hex digits of a byte. -/
def hexByte (b : Nat) : List Char := [hexDigit (b / 16 % 16), hexDigit (b % 16)]

/-- Lower-case hex encoding of a byte list (Go `hex.EncodeToString`,
also what `fmt.Sprintf("%x", ...)` produces on a byte array). -/
def hexEncode (bs : List Nat) : String := String.mk ((bs.map hexByte).flatten)

/-- UTF-8 encoding of one character (Go `[]byte(string)` conversion). -/
def utf8EncodeChar (c : Char) : List Nat :=
  let n := c.toNat
  if n < 128 then [n]
  else if n < 2048 then [192 + n / 64, 128 + n % 64]
  else if n < 65536 then [224 + n / 4096, 128 + n / 64 % 64, 128 + n % 64]
  else [240 + n / 262144, 128 + n / 4096 % 64, 128 + n / 64 % 64, 128 + n % 64]

/-- UTF-8 bytes of a string (Go `[]byte(s)`). -/
def utf8Bytes (s : String) : List Nat := (s.data.map utf8EncodeChar).flatten

/-- SHA-256 hex digest of a string, i.e. Go
`hex.EncodeToString(sha256.Sum256([]byte(s))[:])`, which is also
`fmt.Sprintf("%x", sha256.Sum256([]byte(s)))`. -/
def sha256hex (s : String) : String := hexEncode (sha256ByteList (utf8Bytes s))

/-! ## Configuration data model

Structures mirror the fields of `ctlconf.DirectoryContentsGit` and
`ctlconf.DirectoryContentsHg` that the two adapters read. The config package
itself is not under `src/`, so field sets are those visible from the adapter
code, with the spec supplying the shape of the ref-selection and verification
collaborators. -/

/-- A reference to a named secret (`opts.SecretRef`). -/
structure SecretRef where
  name : String

/-- A secret bundle: named fields mapping to byte blobs, modelled as a list
of (field name, value) pairs; Go iterates the `Data` map in some order, which
the list order represents. -/
structure Secret where
  data : List (String × String)

/-- Modelled from the spec: the recognized secret field name for an SSH
private key (constant `SecretK8sCoreV1SSHAuthPrivateKey` of the config
package, which is not under `src/`). -/
def sshPrivateKeyField : String := "ssh-privatekey"

/-- Modelled from the spec: the recognized secret field name for SSH
known-hosts content (constant `SecretSSHAuthKnownHosts`). -/
def sshKnownHostsField : String := "known_hosts"

/-- Modelled from the spec: the recognized secret field name for a basic-auth
username (constant `SecretK8sCorev1BasicAuthUsernameKey`). -/
def basicAuthUsernameField : String := "username"

/-- Modelled from the spec: the recognized secret field name for a basic-auth
password (constant `SecretK8sCorev1BasicAuthPasswordKey`). -/
def basicAuthPasswordField : String := "password"

/-- Whether a secret field name is one of the four recognized names. -/
def recognizedSecretField (name : String) : Bool :=
  name == sshPrivateKeyField || name == sshKnownHostsField ||
  name == basicAuthUsernameField || name == basicAuthPasswordField

/-- Modelled from the spec: a ref-selection constraint (the `versions`
package is not under `src/`). Constraint satisfaction of a label is
abstracted as the decidable predicate `matches`; `prereleases` is the spec's
toggle ("pre-releases excluded unless the constraint explicitly requests
them"). -/
structure VersionSelection where
  accepts : String → Bool
  prereleases : Bool

/-- Fields of `DirectoryContentsGit` read by the git adapter. The
verification hook is modelled from the spec as an optional check of the
resolved ref that may reject it. -/
structure DirectoryContentsGit where
  URL : String := ""
  Ref : String := ""
  RefSelection : Option VersionSelection := none
  Verification : Option (String → Except Err Unit) := none
  Depth : Int := 0
  SkipInitSubmodules : Bool := false
  LFSSkipSmudge : Bool := false
  DangerousSkipTLSVerify : Bool := false
  ForceHTTPBasicAuth : Bool := false
  SparseCheckout : Bool := false
  SecretRef : Option SecretRef := none

/-- Include/exclude path sets for sparse checkout (`ctlconf.ContentPaths`). -/
structure ContentPaths where
  IncludePaths : List String := []
  ExcludePaths : List String := []

/-- Fields of `DirectoryContentsHg` read by the hg adapter. -/
structure DirectoryContentsHg where
  URL : String := ""
  Ref : String := ""
  Evolve : Bool := false
  SecretRef : Option SecretRef := none

/-- The lock record produced by the git sync
(`ctlconf.LockDirectoryContentsGit`). -/
structure LockDirectoryContentsGit where
  SHA : String := ""
  Tags : List String := []
  CommitTitle : String := ""
deriving DecidableEq

/-- The lock record produced by the hg sync
(`ctlconf.LockDirectoryContentsHg`). -/
structure LockDirectoryContentsHg where
  SHA : String := ""
  ChangeSetTitle : String := ""
deriving DecidableEq

/-! ## Effect model

Every externally visible operation of a sync is recorded as an `Event`; a
`World` oracle decides each operation's outcome. A computation is a pair of
a result and the trace of events it performed. -/

/-- One externally visible effect of a sync. -/
inductive Event where
  | newTempDir (pre path : String)
  | fileWrite (path content : String) (perm : Nat)
  | removeAll (path : String) (ok : Bool)
  | run (args : List String) (dir : String)
  | rename (src dst : String) (ok : Bool)
  | cacheCopyFrom (ctype id dst : String)
  | cacheSave (ctype id srcDir : String)
deriving DecidableEq

/-- The oracle deciding the outcome of each external operation. -/
structure World where
  tempDir : String → Except Err String
  writeFile : String → Except Err Unit
  runCmd : List String → String → Except Err String
  removeAllOk : String → Bool
  renameOk : String → String → Bool
  getSecret : String → Except Err Secret
  noCache : Bool
  cacheHas : String → String → Option String
  cacheCopyFrom : String → String → String → Except Err Unit
  cacheSave : String → String → String → Except Err Unit

/-- A computation result together with the trace of effects it performed. -/
def M (α : Type) : Type := Except Err α × List Event

/-- Sequencing concatenates traces and short-circuits on the first error,
matching the Go code's early-return style (effects already performed stay in
the trace). -/
instance : Monad M where
  pure a := (.ok a, [])
  bind x f :=
    match x with
    | (.ok a, tr) =>
      let y := f a
      (y.1, tr ++ y.2)
    | (.error e, tr) => (.error e, tr)

/-- Fail with an error message, performing no effect. -/
def mErr {α} (e : Err) : M α := (.error e, [])

/-- Lift a pure fallible value, performing no effect. -/
def mOfExcept {α} (x : Except Err α) : M α := (x, [])

/-- Wrap the error of a computation with a message, as Go's
`fmt.Errorf("...: %s", err)` call sites do. -/
def wrapErr {α} (pre : String) (m : M α) : M α :=
  match m with
  | (.error e, tr) => (.error (pre ++ e), tr)
  | ok => ok

/-- `tempArea.NewTempDir`: ask the oracle for a fresh directory. -/
def opTempDir (w : World) (pre : String) : M String :=
  match w.tempDir pre with
  | .error e => (.error e, [])
  | .ok p => (.ok p, [.newTempDir pre p])

/-- `os.WriteFile`: record the path, content and permission bits written. -/
def opWriteFile (w : World) (path content : String) (perm : Nat) : M Unit :=
  match w.writeFile path with
  | .error e => (.error e, [])
  | .ok _ => (.ok (), [.fileWrite path content perm])

/-- `defer os.RemoveAll(dir)`: append the (unchecked) removal to the trace
after the body concludes, on success and on error alike. -/
def withRemoveAllDeferred {α} (w : World) (dir : String) (body : M α) : M α :=
  (body.1, body.2 ++ [Event.removeAll dir (w.removeAllOk dir)])

/-- The checked `os.RemoveAll(dstPath)` of both sync wrappers, wrapped as
`fmt.Errorf("Deleting dir %s: %s", dstPath, err)`. -/
def opRemoveAllChecked (w : World) (p : String) : M Unit :=
  if w.removeAllOk p then (.ok (), [.removeAll p true])
  else (.error ("Deleting dir " ++ p ++ ": remove failed"), [.removeAll p false])

/-- The `os.Rename(incomingTmpPath, dstPath)` of both sync wrappers, wrapped
as `fmt.Errorf("Moving directory '%s' to staging dir: %s", ...)`. -/
def opRename (w : World) (src dst : String) : M Unit :=
  if w.renameOk src dst then (.ok (), [.rename src dst true])
  else (.error ("Moving directory '" ++ src ++ "' to staging dir: rename failed"),
    [.rename src dst false])

/-- `cache.CopyFrom(type, id, dst)`. -/
def opCacheCopyFrom (w : World) (ctype id dst : String) : M Unit :=
  match w.cacheCopyFrom ctype id dst with
  | .ok _ => (.ok (), [.cacheCopyFrom ctype id dst])
  | .error e => (.error e, [])

/-- `cache.Save(type, id, srcDir)`. -/
def opCacheSave (w : World) (ctype id srcDir : String) : M Unit :=
  match w.cacheSave ctype id srcDir with
  | .ok _ => (.ok (), [.cacheSave ctype id srcDir])
  | .error e => (.error e, [])

/-! ## Auth-option derivation (`getAuthOpts`, git.go and hg.go) -/

/-- `gitAuthOpts` (git.go). -/
structure GitAuthOpts where
  PrivateKey : Option String := none
  KnownHosts : Option String := none
  Username : Option String := none
  Password : Option String := none

/-- `gitAuthOpts.IsPresent`. -/
def GitAuthOpts.IsPresent (o : GitAuthOpts) : Bool :=
  o.PrivateKey.isSome || o.KnownHosts.isSome || o.Username.isSome || o.Password.isSome

/-- The field loop of `Git.getAuthOpts`: fold the secret's fields, switching
on the four recognized names, failing on any other name. -/
def gitAuthOptsLoop (secretName : String) (opts : GitAuthOpts) :
    List (String × String) → Except Err GitAuthOpts
  | [] => .ok opts
  | (name, val) :: rest =>
    if name == sshPrivateKeyField then
      gitAuthOptsLoop secretName { opts with PrivateKey := some val } rest
    else if name == sshKnownHostsField then
      gitAuthOptsLoop secretName { opts with KnownHosts := some val } rest
    else if name == basicAuthUsernameField then
      gitAuthOptsLoop secretName { opts with Username := some val } rest
    else if name == basicAuthPasswordField then
      gitAuthOptsLoop secretName { opts with Password := some val } rest
    else
      .error ("Unknown secret field '" ++ name ++ "' in secret '" ++ secretName ++ "'")

/-- `Git.getAuthOpts` (git.go). -/
def gitGetAuthOpts (getSecret : String → Except Err Secret)
    (secretRef : Option SecretRef) : Except Err GitAuthOpts :=
  match secretRef with
  | none => .ok {}
  | some ref =>
    match getSecret ref.name with
    | .error e => .error e
    | .ok secret => gitAuthOptsLoop ref.name {} secret.data

/-- `hgAuthOpts` (hg.go). -/
structure HgAuthOpts where
  PrivateKey : Option String := none
  KnownHosts : Option String := none
  Username : Option String := none
  Password : Option String := none

/-- `hgAuthOpts.IsPresent`. -/
def HgAuthOpts.IsPresent (o : HgAuthOpts) : Bool :=
  o.PrivateKey.isSome || o.KnownHosts.isSome || o.Username.isSome || o.Password.isSome

/-- The field loop of `hg.getAuthOpts`, textually identical to the git one. -/
def hgAuthOptsLoop (secretName : String) (opts : HgAuthOpts) :
    List (String × String) → Except Err HgAuthOpts
  | [] => .ok opts
  | (name, val) :: rest =>
    if name == sshPrivateKeyField then
      hgAuthOptsLoop secretName { opts with PrivateKey := some val } rest
    else if name == sshKnownHostsField then
      hgAuthOptsLoop secretName { opts with KnownHosts := some val } rest
    else if name == basicAuthUsernameField then
      hgAuthOptsLoop secretName { opts with Username := some val } rest
    else if name == basicAuthPasswordField then
      hgAuthOptsLoop secretName { opts with Password := some val } rest
    else
      .error ("Unknown secret field '" ++ name ++ "' in secret '" ++ secretName ++ "'")

/-- `hg.getAuthOpts` (hg.go). -/
def hgGetAuthOpts (getSecret : String → Except Err Secret)
    (secretRef : Option SecretRef) : Except Err HgAuthOpts :=
  match secretRef with
  | none => .ok {}
  | some ref =>
    match getSecret ref.name with
    | .error e => .error e
    | .ok secret => hgAuthOptsLoop ref.name {} secret.data

/-- Go `strings.HasPrefix`, kernel-reducible (character-list based). -/
def goStartsWith (s pre : String) : Bool := pre.data.isPrefixOf s.data

/-- Go byte-slicing `s[n:]` for an ASCII prefix of length `n`: drop `n`
characters. -/
def goDrop (s : String) (n : Nat) : String := String.mk (s.data.drop n)

/-- Go `strings.TrimSpace`, kernel-reducible. -/
def goTrim (s : String) : String :=
  String.mk (((s.data.dropWhile Char.isWhitespace).reverse.dropWhile
    Char.isWhitespace).reverse)

/-- Go `strings.Split` with a one-character separator, kernel-reducible. -/
def goSplitChar (sep : Char) : List Char → List (List Char)
  | [] => [[]]
  | c :: rest =>
    let r := goSplitChar sep rest
    if c == sep then [] :: r
    else
      match r with
      | h :: t => (c :: h) :: t
      | [] => [[c]]

/-- Go `strings.Split(s, "\n")` (the separator is a single ASCII byte, so
character-level splitting agrees with Go's byte-level splitting). -/
def goSplitNl (s : String) : List String :=
  (goSplitChar (Char.ofNat 10) s.data).map String.mk

/-- Join character lists with a separator (inverse of `goSplitChar`). -/
def goJoinChar (sep : Char) : List (List Char) → List Char
  | [] => []
  | [x] => x
  | x :: rest => x ++ sep :: goJoinChar sep rest

/-! ## Version selection (modelled from the spec)

`ctlver.HighestConstrainedVersion` lives in the `versions` package, which is
not under `src/`. Modelled from the spec: "list all known version-like
labels in the working area, then select the highest label satisfying the
constraint using standard version-range semantics (semver-style precedence,
pre-releases excluded unless the constraint explicitly requests them). Fails
... if no label satisfies the constraint". -/

/-- Parse a list of decimal digit characters. -/
def parseNatDigits (s : List Char) : Option Nat :=
  if s.isEmpty then none
  else if s.all (fun c => c.isDigit) then
    some (s.foldl (fun a c => a * 10 + (c.toNat - 48)) 0)
  else none

/-- A parsed version-like label: up to three numeric core components
(padded with zeros, relaxed-semver style) and the dot-separated prerelease
identifiers (empty for a release). -/
structure ParsedVersion where
  core : List Nat
  pre : List String
deriving DecidableEq

/-- Modelled from the spec: parse a version-like label. An optional leading
`v` is dropped; the part before the first `-` must be 1 to 3 dot-separated
decimal numerals; the part after it is the prerelease. -/
def parseVersion (s : String) : Option ParsedVersion :=
  let s1 := if goStartsWith s "v" then goDrop s 1 else s
  let parts := goSplitChar '-' s1.data
  let coreStr := parts.headD s1.data
  let preIds : List (List Char) :=
    if parts.length > 1 then goSplitChar '.' (goJoinChar '-' parts.tail) else []
  let comps := goSplitChar '.' coreStr
  if comps.length > 3 then none
  else
    match comps.mapM parseNatDigits with
    | none => none
    | some ns =>
      some { core := ns ++ List.replicate (3 - ns.length) 0, pre := preIds.map String.mk }

/-- Semver precedence key of one prerelease identifier: numeric identifiers
rank below alphanumeric ones and compare numerically; alphanumeric ones
compare lexically. -/
def identKey (s : String) : List Nat :=
  match parseNatDigits s.data with
  | some n => [0, n]
  | none => 1 :: s.data.map Char.toNat

/-- Semver-style precedence key of a parsed version, compared by the
lexicographic order on `List (List Nat)`: core components first, then
"has no prerelease" (a release ranks above any prerelease of the same
core), then the prerelease identifiers. -/
def verKey (v : ParsedVersion) : List (List Nat) :=
  v.core.map (fun n => [n]) ++ [[if v.pre.isEmpty then 1 else 0]] ++ v.pre.map identKey

/-- Precedence key of a label (unparsable labels get the bottom key; they
are filtered out before comparison). -/
def verKeyOf (t : String) : List (List Nat) :=
  match parseVersion t with
  | some v => verKey v
  | none => []

/-- Decidable strict precedence between two labels. -/
def verLtB (a b : String) : Bool := decide (verKeyOf a < verKeyOf b)

/-- Whether a label is a candidate under a selection: it parses as a
version, is a release or prereleases are requested, and it satisfies the
constraint. -/
def versionCandidate (sel : VersionSelection) (t : String) : Bool :=
  match parseVersion t with
  | none => false
  | some v => (sel.prereleases || v.pre.isEmpty) && sel.accepts t

/-- Modelled from the spec: `HighestConstrainedVersion` — the highest
candidate label, or an error when there is none. -/
def highestConstrainedVersion (tags : List String) (sel : VersionSelection) :
    Except Err String :=
  match tags.filter (versionCandidate sel) with
  | [] => .error "Expected to find at least one version, but did not"
  | c :: cs => .ok (cs.foldl (fun best t => if verLtB best t then t else best) c)

/-! ## Small Go helpers shared by the adapters -/

/-- Go `strings.SplitN(s, "\n", 2)` on the character list of the string (the
separator is the single ASCII byte LF, so byte-level and character-level
splitting agree). -/
def splitN2nl (s : List Char) : List (List Char) :=
  if s.contains (Char.ofNat 10) then
    [s.takeWhile (fun c => c != Char.ofNat 10),
     (s.dropWhile (fun c => c != Char.ofNat 10)).tail]
  else [s]

/-- `Sync.singleLineCommitTitle` (git sync wrapper): first line of a
multi-line message with `...` appended, a single-line message unchanged. -/
def singleLineCommitTitle (s : String) : String :=
  let pieces := (splitN2nl s.data).map String.mk
  if pieces.length > 1 then pieces.headD "" ++ "..." else pieces.headD ""

/-- `Sync.singleLineChangeSetTitle` (hg sync wrapper), the same computation
as the git one. -/
def singleLineChangeSetTitle (s : String) : String :=
  let pieces := (splitN2nl s.data).map String.mk
  if pieces.length > 1 then pieces.headD "" ++ "..." else pieces.headD ""

/-- Host part of an `https://...` URL (Go `url.Parse(u).Host`), modelled as
the text between the scheme and the next `/`; no claim depends on the finer
points of `net/url`. -/
def goURLHost (u : String) : String :=
  String.mk ((if goStartsWith u "https://" then goDrop u 8 else u).data.takeWhile
    (fun c => c != '/'))

/-- The credentials-file URL form written by the git adapter: Go parses the
remote URL, sets `User` to `user:pass`, clears `Path`, and serializes. -/
def gitCredsURLString (u user pass : String) : String :=
  "https://" ++ user ++ ":" ++ pass ++ "@" ++ goURLHost u

/-- The standard base64 alphabet. -/
def base64Table : List Char :=
  "ABCDEFGHIJKLMNOPQRSTUVWXYZabcdefghijklmnopqrstuvwxyz0123456789+/".data

/-- Character of one 6-bit value. -/
def base64Char (n : Nat) : Char := base64Table.getD n 'A'

/-- Encode a group of at most three bytes. -/
def base64Group : List Nat → List Char
  | [b0] => [base64Char (b0 / 4), base64Char (b0 % 4 * 16), '=', '=']
  | [b0, b1] => [base64Char (b0 / 4), base64Char (b0 % 4 * 16 + b1 / 16),
      base64Char (b1 % 16 * 4), '=']
  | [b0, b1, b2] => [base64Char (b0 / 4), base64Char (b0 % 4 * 16 + b1 / 16),
      base64Char (b1 % 16 * 4 + b2 / 64), base64Char (b2 % 64)]
  | _ => []

/-- Go `base64.StdEncoding.EncodeToString([]byte(s))`, modelled from the
standard base64 specification (external library). -/
def goBase64StdEncode (s : String) : String :=
  let bs := utf8Bytes s
  String.mk (((chunksFuel 3 bs.length bs).map base64Group).flatten)

/-- The ssh command assembled by both adapters (joined with spaces into
`GIT_SSH_COMMAND` by git and into the `[ui] ssh` hgrc line by hg). -/
def sshCmdPieces (privateKeyPath knownHostsPath : Option String) : List String :=
  ["ssh", "-o", "ServerAliveInterval=30", "-o", "ForwardAgent=no", "-F", "/dev/null"]
  ++ (match privateKeyPath with
      | some p => ["-i", p, "-o", "IdentitiesOnly=yes"]
      | none => [])
  ++ (match knownHostsPath with
      | some p => ["-o", "StrictHostKeyChecking=yes", "-o", "UserKnownHostsFile=" ++ p]
      | none => ["-o", "StrictHostKeyChecking=no"])

/-! ## The git adapter (`git.go`, `Git.Retrieve` / `Git.fetch`) and its sync
wrapper (`Sync.Sync`, the unnamed git `sync.go`) -/

/-- `runner.Run`: invoke the external `git` with the given arguments and
working directory; a failure is wrapped with the invoked arguments. -/
def gitRun (w : World) (args : List String) (dir : String) : M String :=
  match w.runCmd ("git" :: args) dir with
  | .ok out => (.ok out, [.run ("git" :: args) dir])
  | .error e => (.error ("Git [" ++ String.intercalate " " args ++ "]: " ++ e),
      [.run ("git" :: args) dir])

/-- `runner.RunMultiple`: run each argument list in order, stopping at the
first failure. -/
def gitRunMultiple (w : World) (argss : List (List String)) (dir : String) : M Unit :=
  match argss with
  | [] => pure ()
  | args :: rest => do
    let _ ← gitRun w args dir
    gitRunMultiple w rest dir

/-- `GitInfo` (git.go). -/
structure GitInfo where
  SHA : String := ""
  Tags : List String := []
  CommitTitle : String := ""
deriving DecidableEq

/-- `Git.tags`: `git tag -l`, output split on newlines (no trimming). -/
def gitTags (w : World) (dstPath : String) : M (List String) := do
  let out ← gitRun w ["tag", "-l"] dstPath
  pure (goSplitNl out)

/-- `Git.resolveRef` (git.go): an explicit ref wins, with a remote-tracking
`origin/` marker stripped (7 characters); otherwise a ref selection picks
the highest matching tag; otherwise an error. -/
def gitResolveRef (w : World) (opts : DirectoryContentsGit) (dstPath : String) : M String :=
  if opts.Ref.length > 0 then
    if goStartsWith opts.Ref "origin/" then pure (goDrop opts.Ref 7) else pure opts.Ref
  else
    match opts.RefSelection with
    | some sel => do
      let tags ← gitTags w dstPath
      mOfExcept (highestConstrainedVersion tags sel)
    | none => mErr "Expected either ref or ref selection to be specified"

/-- The git private-key staging step: the key is written with a trailing
newline appended (git requires it) and owner-only permissions. -/
def gitWritePrivateKey (w : World) (authOpts : GitAuthOpts) (authDir : String) : M Unit :=
  match authOpts.PrivateKey with
  | some key => wrapErr "Writing private key: "
      (opWriteFile w (authDir ++ "/private-key") (key ++ "\n") 0o600)
  | none => pure ()

/-- The git known-hosts staging step. -/
def gitWriteKnownHosts (w : World) (authOpts : GitAuthOpts) (authDir : String) : M Unit :=
  match authOpts.KnownHosts with
  | some hosts => wrapErr "Writing known hosts: "
      (opWriteFile w (authDir ++ "/known-hosts") hosts 0o600)
  | none => pure ()

/-- `Git.fetch`, username/password handling: require an `https://` remote,
then either inject a basic-auth header into the client configuration or
persist a credentials file. Returns the updated command list. -/
def gitCredsStep (w : World) (opts : DirectoryContentsGit) (authOpts : GitAuthOpts)
    (gitCredsPath : String) (argss : List (List String)) : M (List (List String)) :=
  match authOpts.Username, authOpts.Password with
  | some u, some p =>
    if !(goStartsWith opts.URL "https://") then
      mErr "Username/password authentication is only supported for https remotes"
    else if opts.ForceHTTPBasicAuth then
      pure (argss ++ [["config", "--add", "http.extraHeader",
        "Authorization: Basic " ++ goBase64StdEncode (u ++ ":" ++ p)]])
    else do
      wrapErr ("Writing " ++ gitCredsPath ++ ": ")
        (opWriteFile w gitCredsPath (gitCredsURLString opts.URL u p ++ "\n") 0o600)
      pure argss
  | _, _ => pure argss

/-- The verification hook of `Git.fetch`, run between ref resolution and
checkout (modelled from the spec; the verification code is not under
`src/`). -/
def gitVerify (opts : DirectoryContentsGit) (ref : String) : M Unit :=
  match opts.Verification with
  | some verify => mOfExcept (verify ref)
  | none => pure ()

/-- Body of `Git.fetch` after the auth directory exists (everything covered
by its `defer os.RemoveAll(authDir)`). -/
def gitFetchBody (w : World) (opts : DirectoryContentsGit) (cp : ContentPaths)
    (dstPath bundle : String) (authOpts : GitAuthOpts) (authDir : String) : M Unit := do
  if authOpts.IsPresent then do
    gitWritePrivateKey w authOpts authDir
    gitWriteKnownHosts w authOpts authDir
  let gitCredsPath := authDir ++ "/.git-credentials"
  let argss1 := [["init"],
    ["config", "credential.helper", "store --file " ++ gitCredsPath],
    ["remote", "add", "origin", opts.URL]]
  let argss2 :=
    if opts.SparseCheckout && (!cp.IncludePaths.isEmpty || !cp.ExcludePaths.isEmpty) then
      argss1 ++ [["sparse-checkout", "set", "--no-cone"] ++ cp.IncludePaths
        ++ cp.ExcludePaths.map (fun e => "!" ++ e)]
    else argss1
  let argss3 ← gitCredsStep w opts authOpts gitCredsPath argss2
  let argss4 := argss3 ++ [["config", "remote.origin.tagOpt", "--tags"]]
  let argss5 := if bundle != "" then argss4 ++ [["bundle", "unbundle", bundle]] else argss4
  let fetchArgs := ["fetch", "origin"]
    ++ (if goStartsWith opts.Ref "origin/" then [goDrop opts.Ref 7] else [])
    ++ (if 0 < opts.Depth then ["--depth", toString opts.Depth] else [])
  gitRunMultiple w (argss5 ++ [fetchArgs]) dstPath
  let ref ← gitResolveRef w opts dstPath
  gitVerify opts ref
  let _ ← gitRun w ["-c", "advice.detachedHead=false", "checkout", ref] dstPath
  if !opts.SkipInitSubmodules then do
    let _ ← gitRun w ["submodule", "update", "--init", "--recursive"] dstPath
    pure ()

/-- `Git.fetch` (git.go): derive auth material, create the auth temp
directory (removed on every exit path from here on), stage credentials,
run the init/config/fetch command sequence, resolve and verify the ref,
check it out, and update submodules. -/
def gitFetch (w : World) (opts : DirectoryContentsGit) (cp : ContentPaths)
    (dstPath bundle : String) : M Unit := do
  let authOpts ← mOfExcept (gitGetAuthOpts w.getSecret opts.SecretRef)
  let authDir ← opTempDir w "git-auth"
  withRemoveAllDeferred w authDir (gitFetchBody w opts cp dstPath bundle authOpts authDir)

/-- The tag-extraction step of `Git.Retrieve`: a `describe --tags` failure
is ignored and leaves the tag list empty. -/
def gitDescribeTags (w : World) (dstPath sha : String) (info : GitInfo) : M GitInfo :=
  match gitRun w ["describe", "--tags", sha] dstPath with
  | (.ok out, tr) => (.ok { info with Tags := goSplitNl (goTrim out) }, tr)
  | (.error _, tr) => (.ok info, tr)

/-- `Git.Retrieve` (git.go). -/
def gitRetrieve (w : World) (opts : DirectoryContentsGit) (cp : ContentPaths)
    (dstPath bundle : String) : M GitInfo :=
  if opts.URL.length == 0 then mErr "Expected non-empty URL"
  else do
    gitFetch w opts cp dstPath bundle
    let out ← gitRun w ["rev-parse", "HEAD"] dstPath
    let info1 : GitInfo := { SHA := goTrim out }
    let info2 ← gitDescribeTags w dstPath info1.SHA info1
    let out3 ← gitRun w ["log", "-n", "1", "--pretty=%B", info1.SHA] dstPath
    pure { info2 with CommitTitle := goTrim out3 }

/-- The cache type of the git sync wrapper. -/
def gitCacheType : String := "git-bundle"

/-- The cache id computed by the git sync wrapper:
`fmt.Sprintf("%x", sha256.Sum256([]byte(d.opts.URL)))` — a function of the
URL alone. -/
def gitSyncCacheID (opts : DirectoryContentsGit) : String := sha256hex opts.URL

/-- The cache id computed by `hg.setup`:
`hex.EncodeToString(sha256.Sum256([]byte(t.opts.URL))[:])` — a function of
the URL alone (the ref is deliberately excluded so a ref change reuses the
cache slot). -/
def hgCacheIDOf (opts : DirectoryContentsHg) : String := sha256hex opts.URL

/-- The final destination-replacement block, textually identical in both
sync wrappers: checked `os.RemoveAll(dstPath)` followed by
`os.Rename(incomingTmpPath, dstPath)`. -/
def syncReplaceDest (w : World) (dstPath incomingTmpPath : String) : M Unit := do
  opRemoveAllChecked w dstPath
  opRename w incomingTmpPath dstPath

/-- The bundle-save block of the git sync wrapper: list all refs, create a
bundle from them, and save it to the cache. -/
def gitBundleSaveOps (w : World) (cacheID incomingTmpPath bundleDir : String) : M Unit := do
  let bundle := bundleDir ++ "/bundle"
  let out ← gitRun w ["for-each-ref", "--format=%(refname)"] incomingTmpPath
  let refs := ((goSplitNl out).map goTrim).filter (fun r => r != "")
  let _ ← gitRun w (["bundle", "create", bundle] ++ refs) incomingTmpPath
  opCacheSave w gitCacheType cacheID bundleDir

/-- Body of the git `Sync.Sync` inside the staging-directory scope: compute
the cache id from the URL alone, probe the cache for a bundle, retrieve,
build the lock record, save a fresh bundle unless caching is disabled, and
replace the destination. -/
def gitSyncBody (w : World) (opts : DirectoryContentsGit) (cp : ContentPaths)
    (dstPath incomingTmpPath : String) : M LockDirectoryContentsGit := do
  let cacheID := gitSyncCacheID opts
  let bundle :=
    match w.cacheHas gitCacheType cacheID with
    | some cacheEntry => cacheEntry ++ "/bundle"
    | none => ""
  let info ← wrapErr "Fetching git repository: "
    (gitRetrieve w opts cp incomingTmpPath bundle)
  let lock : LockDirectoryContentsGit :=
    { SHA := info.SHA, Tags := info.Tags,
      CommitTitle := singleLineCommitTitle info.CommitTitle }
  if w.noCache then do
    syncReplaceDest w dstPath incomingTmpPath
    pure lock
  else do
    let bundleDir ← opTempDir w "bundleCache"
    withRemoveAllDeferred w bundleDir (do
      gitBundleSaveOps w cacheID incomingTmpPath bundleDir
      syncReplaceDest w dstPath incomingTmpPath
      pure lock)

/-- The git `Sync.Sync` (the unnamed git `sync.go`). -/
def gitSync (w : World) (opts : DirectoryContentsGit) (cp : ContentPaths)
    (dstPath : String) : M LockDirectoryContentsGit := do
  let incomingTmpPath ← opTempDir w "git"
  withRemoveAllDeferred w incomingTmpPath (gitSyncBody w opts cp dstPath incomingTmpPath)

/-! ## The hg adapter (`hg.go`) and its sync wrapper (`hg/sync.go`) -/

/-- `hg.run`: invoke the external `hg`. -/
def hgRun (w : World) (args : List String) (dir : String) : M String :=
  match w.runCmd ("hg" :: args) dir with
  | .ok out => (.ok out, [.run ("hg" :: args) dir])
  | .error e => (.error ("Hg [" ++ String.intercalate " " args ++ "]: " ++ e),
      [.run ("hg" :: args) dir])

/-- The persistent fields of the `hg` struct set up by `hg.setup`. -/
structure HgState where
  authDir : String
  cacheID : String
deriving DecidableEq

/-- The username/password section of the hgrc file, guarded by the
https-remote requirement (`hg.setup`). -/
def hgAuthRcStep (opts : DirectoryContentsHg) (authOpts : HgAuthOpts) (hgRc : String) :
    M String :=
  match authOpts.Username, authOpts.Password with
  | some u, some p =>
    if !(goStartsWith opts.URL "https://") then
      mErr "Username/password authentication is only supported for https remotes"
    else
      pure (hgRc ++ "\n[auth]\nhgauth.prefix = https://" ++ goURLHost opts.URL
        ++ "\nhgauth.username = " ++ u ++ "\nhgauth.password = " ++ p ++ "\n")
  | _, _ => pure hgRc

/-- The hg private-key staging step: unlike the git adapter, the key bytes
are written verbatim (no newline appended), with owner-only permissions. -/
def hgWritePrivateKey (w : World) (authOpts : HgAuthOpts) (authDir : String) : M Unit :=
  match authOpts.PrivateKey with
  | some key => wrapErr "Writing private key: "
      (opWriteFile w (authDir ++ "/private-key") key 0o600)
  | none => pure ()

/-- The hg known-hosts staging step. -/
def hgWriteKnownHosts (w : World) (authOpts : HgAuthOpts) (authDir : String) : M Unit :=
  match authOpts.KnownHosts with
  | some hosts => wrapErr "Writing known hosts: "
      (opWriteFile w (authDir ++ "/known-hosts") hosts 0o600)
  | none => pure ()

/-- The ssh section of the hgrc file, together with the key/known-hosts
file writes it references (`hg.setup`). -/
def hgSSHSection (w : World) (authOpts : HgAuthOpts) (authDir : String) (hgRc : String) :
    M String :=
  if authOpts.IsPresent then do
    hgWritePrivateKey w authOpts authDir
    hgWriteKnownHosts w authOpts authDir
    pure (hgRc ++ "\n[ui]\nssh = " ++ String.intercalate " " (sshCmdPieces
      (authOpts.PrivateKey.map (fun _ => authDir ++ "/private-key"))
      (authOpts.KnownHosts.map (fun _ => authDir ++ "/known-hosts"))) ++ "\n")
  else pure hgRc

/-- `hg.setup` (hg.go): check the URL, derive auth material, create the auth
temp directory, assemble and persist the hgrc file, and compute the cache id
as the SHA-256 hex of the URL alone. Note there is no cleanup of the auth
directory on the error paths of this function. -/
def hgSetup (w : World) (opts : DirectoryContentsHg) : M HgState :=
  if opts.URL.length == 0 then mErr "Expected non-empty URL"
  else do
    let authOpts ← mOfExcept (hgGetAuthOpts w.getSecret opts.SecretRef)
    let authDir ← opTempDir w "hg-auth"
    let hgRc0 := if opts.Evolve then "[extensions]\nevolve =\ntopic =" else ""
    let hgRc1 ← hgAuthRcStep opts authOpts hgRc0
    let hgRc2 ← hgSSHSection w authOpts authDir hgRc1
    if hgRc2.length > 0 then
      wrapErr ("Writing " ++ authDir ++ "/hgrc: ")
        (opWriteFile w (authDir ++ "/hgrc") hgRc2 0o600)
    pure { authDir := authDir, cacheID := hgCacheIDOf opts }

/-- `hg.Close`: remove the auth directory if one was recorded. Appended to
a computation's trace as the `defer hg.Close()` of the sync wrapper. -/
def withHgCloseDeferred {α} (w : World) (st : HgState) (body : M α) : M α :=
  (body.1, body.2 ++
    (if st.authDir != "" then [Event.removeAll st.authDir (w.removeAllOk st.authDir)] else []))

/-- `hg.cloneHasTargetRef` (hg.go): ask the engine for the revision id of
the configured ref inside the given clone; true exactly when the command
succeeds and the configured ref string starts with the reported id. -/
def hgCloneHasTargetRef (w : World) (opts : DirectoryContentsHg) (dstPath : String) :
    M Bool :=
  match hgRun w ["id", "--id", "-r", opts.Ref] dstPath with
  | (.ok out, tr) => (.ok (goStartsWith opts.Ref (goTrim out)), tr)
  | (.error _, tr) => (.ok false, tr)

/-- `hg.initClone`: `hg init` plus the repository-level hgrc registering the
remote URL as the default path. -/
def hgInitClone (w : World) (opts : DirectoryContentsHg) (dstPath : String) : M Unit := do
  let _ ← hgRun w ["init"] dstPath
  wrapErr ("Writing " ++ dstPath ++ "/.hg/hgrc: ")
    (opWriteFile w (dstPath ++ "/.hg/hgrc") ("[paths]\ndefault = " ++ opts.URL ++ "\n") 0o600)

/-- `hg.syncClone`: a single `hg pull`. -/
def hgSyncClone (w : World) (dstPath : String) : M Unit := do
  let _ ← hgRun w ["pull"] dstPath
  pure ()

/-- `hg.clone`: init then pull. -/
def hgClone (w : World) (opts : DirectoryContentsHg) (dstPath : String) : M Unit := do
  hgInitClone w opts dstPath
  hgSyncClone w dstPath

/-- `hgInfo` (hg.go). -/
structure HgInfo where
  SHA : String := ""
  ChangeSetTitle : String := ""
deriving DecidableEq

/-- `hg.checkout` (hg.go): check out the configured ref, then extract the
full changeset id and the first line of its description. -/
def hgCheckout (w : World) (opts : DirectoryContentsHg) (dstPath : String) : M HgInfo := do
  let _ ← hgRun w ["checkout", opts.Ref] dstPath
  let out ← hgRun w ["log", "-r", ".", "-T", "{node}"] dstPath
  let sha := goTrim out
  let out2 ← hgRun w ["log", "-l", "1", "-T", "{desc|firstline|strip}", "-r", sha] dstPath
  pure { SHA := sha, ChangeSetTitle := goTrim out2 }

/-- The fetch stage of the hg `Sync.Sync`: on a cache hit, copy the cached
clone into the staging area and pull only when the cached clone does not
already have the target ref (re-saving to the cache after a pull); on a
miss, clone from scratch and save to the cache. -/
def hgFetchStage (w : World) (opts : DirectoryContentsHg) (incomingTmpPath : String)
    (st : HgState) : M Unit :=
  match w.cacheHas "hg" st.cacheID with
  | some cachePath => do
    wrapErr "Extracting cached hg clone: " (opCacheCopyFrom w "hg" st.cacheID incomingTmpPath)
    let hasRef ← hgCloneHasTargetRef w opts cachePath
    if !hasRef then do
      wrapErr "Syncing hg repository: " (hgSyncClone w incomingTmpPath)
      wrapErr "Saving hg repository to cache: " (opCacheSave w "hg" st.cacheID incomingTmpPath)
  | none => do
    wrapErr "Cloning hg repository: " (hgClone w opts incomingTmpPath)
    wrapErr "Saving hg repository to cache: " (opCacheSave w "hg" st.cacheID incomingTmpPath)

/-- Body of the hg `Sync.Sync` after setup succeeded. -/
def hgSyncBody (w : World) (opts : DirectoryContentsHg) (dstPath incomingTmpPath : String)
    (st : HgState) : M LockDirectoryContentsHg := do
  hgFetchStage w opts incomingTmpPath st
  let info ← wrapErr "Checking out hg repository: " (hgCheckout w opts incomingTmpPath)
  let lock : LockDirectoryContentsHg :=
    { SHA := info.SHA, ChangeSetTitle := singleLineChangeSetTitle info.ChangeSetTitle }
  syncReplaceDest w dstPath incomingTmpPath
  pure lock

/-- The hg `Sync.Sync` (hg/sync.go). The deferred cleanups run in Go's LIFO
order: `hg.Close()` (registered second) before the staging-directory
removal (registered first); a setup failure skips `Close` entirely. -/
def hgSync (w : World) (opts : DirectoryContentsHg) (dstPath : String) :
    M LockDirectoryContentsHg := do
  let incomingTmpPath ← opTempDir w "hg"
  withRemoveAllDeferred w incomingTmpPath (do
    let st ← wrapErr "Setting up hg: " (hgSetup w opts)
    withHgCloseDeferred w st (hgSyncBody w opts dstPath incomingTmpPath st))

/-! ## Basic lemmas about the effect monad and traces -/

/-- Sequencing in terms of the first computation's result and trace. -/
@[simp]
theorem M_bind_def {α β : Type} (x : M α) (f : α → M β) :
    x >>= f = (match x.1 with
      | Except.ok a => ((f a).1, x.2 ++ (f a).2)
      | Except.error e => (Except.error e, x.2)) := by
  obtain ⟨r, tr⟩ := x
  cases r <;> rfl

/-- A pure value performs no effect. -/
@[simp]
theorem M_pure {α : Type} (a : α) : (pure a : M α) = (Except.ok a, []) := rfl

/-- Whether an event is an external VCS process invocation. -/
def isRunEvent : Event → Bool
  | .run _ _ => true
  | _ => false

/-- Whether an event runs a command with exactly the given argument
vector. -/
def runsArgs (args : List String) : Event → Bool
  | .run a _ => a == args
  | _ => false

/-- Number of executed commands with exactly the given argument vector. -/
def countArgs (args : List String) (tr : List Event) : Nat :=
  (tr.filter (runsArgs args)).length

/-- Only `run` events can match a command filter (per-constructor facts). -/
@[simp]
theorem runsArgs_newTempDir (q : List String) (a b : String) :
    runsArgs q (Event.newTempDir a b) = false := rfl

/-- File writes never match a command filter. -/
@[simp]
theorem runsArgs_fileWrite (q : List String) (a b : String) (m : Nat) :
    runsArgs q (Event.fileWrite a b m) = false := rfl

/-- Removals never match a command filter. -/
@[simp]
theorem runsArgs_removeAll (q : List String) (a : String) (ok : Bool) :
    runsArgs q (Event.removeAll a ok) = false := rfl

/-- Renames never match a command filter. -/
@[simp]
theorem runsArgs_rename (q : List String) (a b : String) (ok : Bool) :
    runsArgs q (Event.rename a b ok) = false := rfl

/-- A run matches the filter exactly when the argument vectors agree. -/
@[simp]
theorem runsArgs_run (q a : List String) (d : String) :
    runsArgs q (Event.run a d) = (a == q) := rfl

/-- Cache extractions never match a command filter. -/
@[simp]
theorem runsArgs_cacheCopyFrom (q : List String) (a b c : String) :
    runsArgs q (Event.cacheCopyFrom a b c) = false := rfl

/-- Cache saves never match a command filter. -/
@[simp]
theorem runsArgs_cacheSave (q : List String) (a b c : String) :
    runsArgs q (Event.cacheSave a b c) = false := rfl

/-- Whether an event can change the destination directory: only a successful
`removeAll` of `dst` or a successful `rename` onto `dst` can. -/
def touchesDest (dst : String) : Event → Bool
  | .removeAll p ok => p == dst && ok
  | .rename _ d ok => d == dst && ok
  | _ => false

/-- Observable state of the destination directory. -/
inductive DirState where
  | old
  | absent
  | new
deriving DecidableEq

/-- Effect of one event on the destination directory `dst`. -/
def destStep (dst : String) (s : DirState) : Event → DirState
  | .removeAll p true => if p == dst then .absent else s
  | .rename _ d true => if d == dst then .new else s
  | _ => s

/-- State of the destination directory after a trace, starting from `s0`. -/
def destStateFrom (dst : String) (s0 : DirState) (tr : List Event) : DirState :=
  tr.foldl (destStep dst) s0

/-- State of the destination directory after a trace, starting from the
previous content. -/
def destState (dst : String) (tr : List Event) : DirState :=
  destStateFrom dst .old tr

/-- Folding distributes over trace concatenation. -/
theorem destStateFrom_append (dst : String) (s0 : DirState) (tr1 tr2 : List Event) :
    destStateFrom dst s0 (tr1 ++ tr2) = destStateFrom dst (destStateFrom dst s0 tr1) tr2 :=
  List.foldl_append _ _ _ _

/-- An event that does not touch the destination leaves its state alone. -/
theorem destStep_of_not_touch (dst : String) (s : DirState) (ev : Event)
    (h : touchesDest dst ev = false) : destStep dst s ev = s := by
  cases ev with
  | removeAll p ok =>
    cases ok with
    | true =>
      simp only [touchesDest, Bool.and_true] at h
      simp [destStep, h]
    | false => simp [destStep]
  | rename src d ok =>
    cases ok with
    | true =>
      simp only [touchesDest, Bool.and_true] at h
      simp [destStep, h]
    | false => simp [destStep]
  | newTempDir p q => simp [destStep]
  | fileWrite p c m => simp [destStep]
  | run a d => simp [destStep]
  | cacheCopyFrom a b c => simp [destStep]
  | cacheSave a b c => simp [destStep]

/-- A trace with no destination-touching event preserves the state. -/
theorem destStateFrom_of_no_touch (dst : String) (s0 : DirState) (tr : List Event)
    (h : ∀ ev ∈ tr, touchesDest dst ev = false) : destStateFrom dst s0 tr = s0 := by
  induction tr generalizing s0 with
  | nil => rfl
  | cons ev rest ih =>
    have h1 := h ev (by simp)
    have h2 : ∀ e ∈ rest, touchesDest dst e = false := fun e he => h e (by simp [he])
    simp only [destStateFrom, List.foldl_cons]
    rw [destStep_of_not_touch dst s0 ev h1]
    exact ih s0 h2

/-! ## C8: single-line title truncation -/

/-- `takeWhile` runs to the first failing element. -/
theorem takeWhile_append_stop {α : Type} (p : α → Bool) (a : List α) (c : α) (b : List α)
    (ha : ∀ x ∈ a, p x = true) (hc : p c = false) :
    (a ++ c :: b).takeWhile p = a := by
  induction a with
  | nil => simp [List.takeWhile_cons, hc]
  | cons x t ih =>
    have hx := ha x (by simp)
    simp only [List.cons_append, List.takeWhile_cons, hx, if_true]
    rw [ih (fun y hy => ha y (by simp [hy]))]

/-- `dropWhile` stops at the first failing element. -/
theorem dropWhile_append_stop {α : Type} (p : α → Bool) (a : List α) (c : α) (b : List α)
    (ha : ∀ x ∈ a, p x = true) (hc : p c = false) :
    (a ++ c :: b).dropWhile p = c :: b := by
  induction a with
  | nil => simp [List.dropWhile_cons, hc]
  | cons x t ih =>
    have hx := ha x (by simp)
    simp only [List.cons_append, List.dropWhile_cons, hx, if_true]
    exact ih (fun y hy => ha y (by simp [hy]))

/-- Splitting a message around its first newline. -/
theorem splitN2nl_at_first (a b : List Char) (ha : Char.ofNat 10 ∉ a) :
    splitN2nl (a ++ Char.ofNat 10 :: b) = [a, b] := by
  unfold splitN2nl
  have hc : (a ++ Char.ofNat 10 :: b).contains (Char.ofNat 10) = true := by
    simpa using List.mem_append_right a (List.mem_cons_self _ b)
  rw [hc]
  have hta : ∀ x ∈ a, (x != Char.ofNat 10) = true := by
    intro x hx
    have hne : x ≠ Char.ofNat 10 := fun hxe => ha (hxe ▸ hx)
    simpa using hne
  have htc : ((Char.ofNat 10 : Char) != Char.ofNat 10) = false := by simp
  rw [if_pos rfl, takeWhile_append_stop _ a _ b hta htc,
    dropWhile_append_stop _ a _ b hta htc]
  simp

/-- A message without a newline is not split. -/
theorem splitN2nl_single (s : List Char) (hs : Char.ofNat 10 ∉ s) :
    splitN2nl s = [s] := by
  unfold splitN2nl
  have hc : s.contains (Char.ofNat 10) = false := by simpa using hs
  rw [hc]
  simp

/-- C8: for both backends the lock summary is derived by first-line
truncation: a message with a newline reduces to the text before its first
newline with `...` appended, a single-line message is unchanged, and in
particular the message `"Fix bug\n\nDetails here"` yields `"Fix bug..."`. -/
theorem c8_single_line_title :
    (∀ (s : String) (a b : List Char), s.data = a ++ Char.ofNat 10 :: b →
      Char.ofNat 10 ∉ a →
      singleLineCommitTitle s = String.mk a ++ "..." ∧
      singleLineChangeSetTitle s = String.mk a ++ "...") ∧
    (∀ s : String, Char.ofNat 10 ∉ s.data →
      singleLineCommitTitle s = s ∧ singleLineChangeSetTitle s = s) ∧
    singleLineCommitTitle "Fix bug\n\nDetails here" = "Fix bug..." ∧
    singleLineChangeSetTitle "Fix bug\n\nDetails here" = "Fix bug..." := by
  refine ⟨?_, ?_, by decide, by decide⟩
  · intro s a b hdata ha
    constructor
    all_goals
      simp only [singleLineCommitTitle, singleLineChangeSetTitle]
      rw [hdata, splitN2nl_at_first a b ha]
      simp
  · intro s hs
    constructor
    all_goals
      simp only [singleLineCommitTitle, singleLineChangeSetTitle]
      rw [splitN2nl_single s.data hs]
      simp

/-- C8 witness: the truncation law applied at a concrete split point. -/
theorem c8_witness :
    singleLineCommitTitle "Fix bug\nrest" = String.mk "Fix bug".data ++ "..." ∧
    singleLineChangeSetTitle "one line" = "one line" :=
  ⟨(c8_single_line_title.1 "Fix bug\nrest" "Fix bug".data "rest".data
      (by decide) (by decide)).1,
   (c8_single_line_title.2.1 "one line" (by decide)).2⟩
/-! ## C9: secret fields must be recognized -/

/-- A recognized field advances the git auth loop with an updated
accumulator. -/
theorem gitAuthOptsLoop_cons_recognized (sn : String) (o0 : GitAuthOpts)
    (name val : String) (tl : List (String × String))
    (h : recognizedSecretField name = true) :
    ∃ o1, gitAuthOptsLoop sn o0 ((name, val) :: tl) = gitAuthOptsLoop sn o1 tl := by
  simp only [recognizedSecretField, Bool.or_eq_true, beq_iff_eq] at h
  rcases h with ((h1 | h2) | h3) | h4
  · subst h1
    refine ⟨{ o0 with PrivateKey := some val }, ?_⟩
    simp [gitAuthOptsLoop, sshPrivateKeyField, sshKnownHostsField, basicAuthUsernameField, basicAuthPasswordField]
  · subst h2
    refine ⟨{ o0 with KnownHosts := some val }, ?_⟩
    simp [gitAuthOptsLoop, sshPrivateKeyField, sshKnownHostsField, basicAuthUsernameField, basicAuthPasswordField]
  · subst h3
    refine ⟨{ o0 with Username := some val }, ?_⟩
    simp [gitAuthOptsLoop, sshPrivateKeyField, sshKnownHostsField, basicAuthUsernameField, basicAuthPasswordField]
  · subst h4
    refine ⟨{ o0 with Password := some val }, ?_⟩
    simp [gitAuthOptsLoop, sshPrivateKeyField, sshKnownHostsField, basicAuthUsernameField, basicAuthPasswordField]

/-- An unrecognized field fails the git auth loop, naming the field and the
secret. -/
theorem gitAuthOptsLoop_cons_unrecognized (sn : String) (o0 : GitAuthOpts)
    (name val : String) (tl : List (String × String))
    (h : recognizedSecretField name = false) :
    gitAuthOptsLoop sn o0 ((name, val) :: tl) =
      Except.error ("Unknown secret field '" ++ name ++ "' in secret '" ++ sn ++ "'") := by
  simp only [recognizedSecretField, Bool.or_eq_false_iff] at h
  obtain ⟨⟨⟨h1, h2⟩, h3⟩, h4⟩ := h
  simp [gitAuthOptsLoop, h1, h2, h3, h4]

/-- Success of the git auth loop forces every field name to be recognized. -/
theorem gitAuthOptsLoop_ok_names (sn : String) (data : List (String × String)) :
    ∀ (o0 o : GitAuthOpts), gitAuthOptsLoop sn o0 data = Except.ok o →
      ∀ nv ∈ data, recognizedSecretField nv.1 = true := by
  induction data with
  | nil => intro o0 o h nv hnv; cases hnv
  | cons hd tl ih =>
    intro o0 o h nv hnv
    obtain ⟨name, val⟩ := hd
    by_cases hr : recognizedSecretField name = true
    · obtain ⟨o1, ho1⟩ := gitAuthOptsLoop_cons_recognized sn o0 name val tl hr
      rw [ho1] at h
      rcases List.mem_cons.mp hnv with hEq | hTl
      · subst hEq; exact hr
      · exact ih o1 o h nv hTl
    · have hf : recognizedSecretField name = false := by simpa using hr
      rw [gitAuthOptsLoop_cons_unrecognized sn o0 name val tl hf] at h
      simp at h

/-- A bundle with an unrecognized field makes the git auth loop fail with an
error naming an unrecognized field of the bundle and the secret. -/
theorem gitAuthOptsLoop_err_of_bad (sn : String) (data : List (String × String))
    (hbad : ∃ nv ∈ data, recognizedSecretField nv.1 = false) :
    ∃ bad v, (bad, v) ∈ data ∧ recognizedSecretField bad = false ∧
      ∀ o0, gitAuthOptsLoop sn o0 data =
        Except.error ("Unknown secret field '" ++ bad ++ "' in secret '" ++ sn ++ "'") := by
  induction data with
  | nil => obtain ⟨nv, hnv, _⟩ := hbad; cases hnv
  | cons hd tl ih =>
    obtain ⟨name, val⟩ := hd
    by_cases hr : recognizedSecretField name = true
    · have hbad' : ∃ nv ∈ tl, recognizedSecretField nv.1 = false := by
        obtain ⟨nv, hnv, hnvf⟩ := hbad
        rcases List.mem_cons.mp hnv with hEq | hTl
        · subst hEq; rw [hr] at hnvf; cases hnvf
        · exact ⟨nv, hTl, hnvf⟩
      obtain ⟨bad, v, hmem, hbf, hres⟩ := ih hbad'
      refine ⟨bad, v, List.mem_cons_of_mem _ hmem, hbf, fun o0 => ?_⟩
      obtain ⟨o1, ho1⟩ := gitAuthOptsLoop_cons_recognized sn o0 name val tl hr
      rw [ho1]
      exact hres o1
    · have hf : recognizedSecretField name = false := Bool.not_eq_true _ ▸ hr
      exact ⟨name, val, List.mem_cons_self _ _, hf,
        fun o0 => gitAuthOptsLoop_cons_unrecognized sn o0 name val tl hf⟩

/-- A recognized field advances the hg auth loop with an updated
accumulator. -/
theorem hgAuthOptsLoop_cons_recognized (sn : String) (o0 : HgAuthOpts)
    (name val : String) (tl : List (String × String))
    (h : recognizedSecretField name = true) :
    ∃ o1, hgAuthOptsLoop sn o0 ((name, val) :: tl) = hgAuthOptsLoop sn o1 tl := by
  simp only [recognizedSecretField, Bool.or_eq_true, beq_iff_eq] at h
  rcases h with ((h1 | h2) | h3) | h4
  · subst h1
    refine ⟨{ o0 with PrivateKey := some val }, ?_⟩
    simp [hgAuthOptsLoop, sshPrivateKeyField, sshKnownHostsField, basicAuthUsernameField, basicAuthPasswordField]
  · subst h2
    refine ⟨{ o0 with KnownHosts := some val }, ?_⟩
    simp [hgAuthOptsLoop, sshPrivateKeyField, sshKnownHostsField, basicAuthUsernameField, basicAuthPasswordField]
  · subst h3
    refine ⟨{ o0 with Username := some val }, ?_⟩
    simp [hgAuthOptsLoop, sshPrivateKeyField, sshKnownHostsField, basicAuthUsernameField, basicAuthPasswordField]
  · subst h4
    refine ⟨{ o0 with Password := some val }, ?_⟩
    simp [hgAuthOptsLoop, sshPrivateKeyField, sshKnownHostsField, basicAuthUsernameField, basicAuthPasswordField]

/-- An unrecognized field fails the hg auth loop, naming the field and the
secret. -/
theorem hgAuthOptsLoop_cons_unrecognized (sn : String) (o0 : HgAuthOpts)
    (name val : String) (tl : List (String × String))
    (h : recognizedSecretField name = false) :
    hgAuthOptsLoop sn o0 ((name, val) :: tl) =
      Except.error ("Unknown secret field '" ++ name ++ "' in secret '" ++ sn ++ "'") := by
  simp only [recognizedSecretField, Bool.or_eq_false_iff] at h
  obtain ⟨⟨⟨h1, h2⟩, h3⟩, h4⟩ := h
  simp [hgAuthOptsLoop, h1, h2, h3, h4]

/-- Success of the hg auth loop forces every field name to be recognized. -/
theorem hgAuthOptsLoop_ok_names (sn : String) (data : List (String × String)) :
    ∀ (o0 o : HgAuthOpts), hgAuthOptsLoop sn o0 data = Except.ok o →
      ∀ nv ∈ data, recognizedSecretField nv.1 = true := by
  induction data with
  | nil => intro o0 o h nv hnv; cases hnv
  | cons hd tl ih =>
    intro o0 o h nv hnv
    obtain ⟨name, val⟩ := hd
    by_cases hr : recognizedSecretField name = true
    · obtain ⟨o1, ho1⟩ := hgAuthOptsLoop_cons_recognized sn o0 name val tl hr
      rw [ho1] at h
      rcases List.mem_cons.mp hnv with hEq | hTl
      · subst hEq; exact hr
      · exact ih o1 o h nv hTl
    · have hf : recognizedSecretField name = false := by simpa using hr
      rw [hgAuthOptsLoop_cons_unrecognized sn o0 name val tl hf] at h
      simp at h

/-- A bundle with an unrecognized field makes the hg auth loop fail with an
error naming an unrecognized field of the bundle and the secret. -/
theorem hgAuthOptsLoop_err_of_bad (sn : String) (data : List (String × String))
    (hbad : ∃ nv ∈ data, recognizedSecretField nv.1 = false) :
    ∃ bad v, (bad, v) ∈ data ∧ recognizedSecretField bad = false ∧
      ∀ o0, hgAuthOptsLoop sn o0 data =
        Except.error ("Unknown secret field '" ++ bad ++ "' in secret '" ++ sn ++ "'") := by
  induction data with
  | nil => obtain ⟨nv, hnv, _⟩ := hbad; cases hnv
  | cons hd tl ih =>
    obtain ⟨name, val⟩ := hd
    by_cases hr : recognizedSecretField name = true
    · have hbad' : ∃ nv ∈ tl, recognizedSecretField nv.1 = false := by
        obtain ⟨nv, hnv, hnvf⟩ := hbad
        rcases List.mem_cons.mp hnv with hEq | hTl
        · subst hEq; rw [hr] at hnvf; cases hnvf
        · exact ⟨nv, hTl, hnvf⟩
      obtain ⟨bad, v, hmem, hbf, hres⟩ := ih hbad'
      refine ⟨bad, v, List.mem_cons_of_mem _ hmem, hbf, fun o0 => ?_⟩
      obtain ⟨o1, ho1⟩ := hgAuthOptsLoop_cons_recognized sn o0 name val tl hr
      rw [ho1]
      exact hres o1
    · have hf : recognizedSecretField name = false := Bool.not_eq_true _ ▸ hr
      exact ⟨name, val, List.mem_cons_self _ _, hf,
        fun o0 => hgAuthOptsLoop_cons_unrecognized sn o0 name val tl hf⟩

/-- C9: for both backends, auth derivation from a secret succeeds only when
every field name in the bundle is one of the four recognized names, and a
bundle containing an unrecognized field name fails with an error naming an
unrecognized field of that bundle together with the secret's name. -/
theorem c9_unknown_secret_field (gs : String → Except Err Secret) (ref : SecretRef)
    (secret : Secret) (hgs : gs ref.name = Except.ok secret) :
    ((∀ o, gitGetAuthOpts gs (some ref) = Except.ok o →
        ∀ nv ∈ secret.data, recognizedSecretField nv.1 = true) ∧
      ((∃ nv ∈ secret.data, recognizedSecretField nv.1 = false) →
        ∃ bad v, (bad, v) ∈ secret.data ∧ recognizedSecretField bad = false ∧
          gitGetAuthOpts gs (some ref) = Except.error
            ("Unknown secret field '" ++ bad ++ "' in secret '" ++ ref.name ++ "'"))) ∧
    ((∀ o, hgGetAuthOpts gs (some ref) = Except.ok o →
        ∀ nv ∈ secret.data, recognizedSecretField nv.1 = true) ∧
      ((∃ nv ∈ secret.data, recognizedSecretField nv.1 = false) →
        ∃ bad v, (bad, v) ∈ secret.data ∧ recognizedSecretField bad = false ∧
          hgGetAuthOpts gs (some ref) = Except.error
            ("Unknown secret field '" ++ bad ++ "' in secret '" ++ ref.name ++ "'"))) := by
  constructor
  · constructor
    · intro o h
      simp only [gitGetAuthOpts, hgs] at h
      exact gitAuthOptsLoop_ok_names ref.name secret.data {} o h
    · intro hbad
      obtain ⟨bad, v, hmem, hbf, hres⟩ := gitAuthOptsLoop_err_of_bad ref.name secret.data hbad
      exact ⟨bad, v, hmem, hbf, by simp only [gitGetAuthOpts, hgs]; exact hres {}⟩
  · constructor
    · intro o h
      simp only [hgGetAuthOpts, hgs] at h
      exact hgAuthOptsLoop_ok_names ref.name secret.data {} o h
    · intro hbad
      obtain ⟨bad, v, hmem, hbf, hres⟩ := hgAuthOptsLoop_err_of_bad ref.name secret.data hbad
      exact ⟨bad, v, hmem, hbf, by simp only [hgGetAuthOpts, hgs]; exact hres {}⟩

/-- C9 witness: a secret holding a recognized and an unrecognized field is
rejected with the expected message by both backends. -/
theorem c9_witness :
    ∃ bad v, (bad, v) ∈ [("username", "u"), ("token", "t")] ∧
      recognizedSecretField bad = false ∧
      gitGetAuthOpts
        (fun _ => Except.ok { data := [("username", "u"), ("token", "t")] })
        (some { name := "my-secret" }) = Except.error
          ("Unknown secret field '" ++ bad ++ "' in secret '" ++ "my-secret" ++ "'") :=
  ((c9_unknown_secret_field
    (fun _ => Except.ok { data := [("username", "u"), ("token", "t")] })
    { name := "my-secret" }
    { data := [("username", "u"), ("token", "t")] } rfl).1).2
    ⟨("token", "t"), by decide, by decide⟩
/-! ## C4: private-key staging, and C5: auth-directory cleanup -/

/-- A world in which every operation succeeds, returning the given secret
data; temp dirs are named after their prefix. -/
def okWorld (data : List (String × String)) : World :=
  { tempDir := fun pre => Except.ok ("/tmp/" ++ pre),
    writeFile := fun _ => Except.ok (),
    runCmd := fun _ _ => Except.ok "",
    removeAllOk := fun _ => true,
    renameOk := fun _ _ => true,
    getSecret := fun _ => Except.ok { data := data },
    noCache := false,
    cacheHas := fun _ _ => none,
    cacheCopyFrom := fun _ _ _ => Except.ok (),
    cacheSave := fun _ _ _ => Except.ok () }

/-- Whether an event writes the given file path. -/
def writesPath (p : String) : Event → Bool
  | .fileWrite q _ _ => q == p
  | _ => false

/-- Whether an event removes (or attempts to remove) the given directory. -/
def removesDir (d : String) : Event → Bool
  | .removeAll p _ => p == d
  | _ => false

/-- An hg source whose secret is a private key without a trailing newline. -/
def hgOptsKeyNoNl : DirectoryContentsHg :=
  { URL := "https://h/r", Ref := "tip", SecretRef := some { name := "s" } }

set_option maxRecDepth 8192 in
/-- C4 counterexample: the hg backend stages the private key `"KEY"`
verbatim — the on-disk file content is not the key followed by a newline
and does not end with one, refuting the claim for the full-clone backend. -/
theorem c4_counterexample :
    ((hgSetup (okWorld [("ssh-privatekey", "KEY")]) hgOptsKeyNoNl).2.filter
        (writesPath "/tmp/hg-auth/private-key")) =
      [Event.fileWrite "/tmp/hg-auth/private-key" "KEY" 0o600] ∧
    "KEY" ≠ "KEY" ++ "\n" ∧ "KEY".data.getLast? ≠ some (Char.ofNat 10) := by
  refine ⟨rfl, by decide, by decide⟩

/-- C4 as amended: the git backend stages a private key as the key followed
by exactly one newline (hence always newline-terminated) with owner-only
0600 permissions; the hg backend stages the key bytes verbatim with 0600
permissions and gives no newline guarantee. -/
theorem c4_amended_private_key :
    (∀ (w : World) (a : GitAuthOpts) (d key : String), a.PrivateKey = some key →
      w.writeFile (d ++ "/private-key") = Except.ok () →
      gitWritePrivateKey w a d =
        (Except.ok (), [Event.fileWrite (d ++ "/private-key") (key ++ "\n") 0o600]) ∧
      (key ++ "\n").data.getLast? = some (Char.ofNat 10)) ∧
    (∀ (w : World) (a : HgAuthOpts) (d key : String), a.PrivateKey = some key →
      w.writeFile (d ++ "/private-key") = Except.ok () →
      hgWritePrivateKey w a d =
        (Except.ok (), [Event.fileWrite (d ++ "/private-key") key 0o600])) := by
  constructor
  · intro w a d key hk hw
    constructor
    · simp [gitWritePrivateKey, hk, wrapErr, opWriteFile, hw]
    · rw [show (key ++ "\n").data = key.data ++ ['\n'] from String.data_append key "\n"]
      simp
  · intro w a d key hk hw
    simp [hgWritePrivateKey, hk, wrapErr, opWriteFile, hw]

/-- C4 witness: the two staging behaviours at a concrete key. -/
theorem c4_witness :
    gitWritePrivateKey (okWorld []) { PrivateKey := some "KEY" } "/a" =
      (Except.ok (), [Event.fileWrite "/a/private-key" ("KEY" ++ "\n") 0o600]) ∧
    hgWritePrivateKey (okWorld []) { PrivateKey := some "KEY" } "/a" =
      (Except.ok (), [Event.fileWrite "/a/private-key" "KEY" 0o600]) :=
  ⟨(c4_amended_private_key.1 (okWorld []) { PrivateKey := some "KEY" } "/a" "KEY"
      rfl rfl).1,
   c4_amended_private_key.2 (okWorld []) { PrivateKey := some "KEY" } "/a" "KEY"
      rfl rfl⟩

/-- A world in which writing the hg private-key file fails. -/
def c5HgWorld : World :=
  { okWorld [("ssh-privatekey", "KEY")] with
    writeFile := fun p =>
      if p == "/tmp/hg-auth/private-key" then Except.error "disk full" else Except.ok () }

/-- A world in which writing the git private-key file fails. -/
def c5GitWorld : World :=
  { okWorld [("ssh-privatekey", "KEY")] with
    writeFile := fun p =>
      if p == "/tmp/git-auth/private-key" then Except.error "disk full" else Except.ok () }

/-- A git source with the same secret. -/
def gitOptsKey : DirectoryContentsGit :=
  { URL := "https://h/r", Ref := "main", SecretRef := some { name := "s" } }

set_option maxRecDepth 8192 in
/-- C5 failing input: when the hg private-key write fails after the auth
temp directory was created, the sync fails but the trace contains no
removal of the auth directory — the directory leaks. The git backend, on
the identical failure, does remove its auth directory (its cleanup is
registered as soon as the directory exists). -/
theorem c5_hg_auth_dir_leak :
    (hgSync c5HgWorld hgOptsKeyNoNl "/dst").1 =
      Except.error "Setting up hg: Writing private key: disk full" ∧
    Event.newTempDir "hg-auth" "/tmp/hg-auth" ∈ (hgSync c5HgWorld hgOptsKeyNoNl "/dst").2 ∧
    (hgSync c5HgWorld hgOptsKeyNoNl "/dst").2.filter (removesDir "/tmp/hg-auth") = [] ∧
    (gitFetch c5GitWorld gitOptsKey {} "/work" "").1 =
      Except.error "Writing private key: disk full" ∧
    Event.removeAll "/tmp/git-auth" true ∈ (gitFetch c5GitWorld gitOptsKey {} "/work" "").2 := by
  refine ⟨rfl, by decide, rfl, rfl, by decide⟩
/-! ## C6: ref resolution -/

/-- Unfolding of the label precedence test. -/
theorem verLtB_true_iff (a b : String) :
    verLtB a b = true ↔ verKeyOf a < verKeyOf b := by
  simp [verLtB]

/-- Unfolding of the negated label precedence test. -/
theorem verLtB_false_iff (a b : String) :
    verLtB a b = false ↔ ¬ verKeyOf a < verKeyOf b := by
  simp [verLtB]

/-- The fold of `highestConstrainedVersion` picks an element of the
candidate list. -/
theorem pickHighest_mem (cs : List String) (c : String) :
    cs.foldl (fun best t => if verLtB best t then t else best) c ∈ c :: cs := by
  induction cs generalizing c with
  | nil => simp
  | cons x rest ih =>
    simp only [List.foldl_cons]
    have hm := ih (if verLtB c x then x else c)
    rcases List.mem_cons.mp hm with hEq | hRest
    · rw [hEq]
      by_cases h : verLtB c x
      · simp [h]
      · simp [h]
    · simp [List.mem_cons, hRest]

/-- No element of the candidate list ranks strictly above the fold's pick. -/
theorem pickHighest_not_lt (cs : List String) (c : String) :
    ∀ t ∈ c :: cs,
      verLtB (cs.foldl (fun best t => if verLtB best t then t else best) c) t = false := by
  induction cs generalizing c with
  | nil =>
    intro t ht
    have : t = c := by simpa using ht
    subst this
    rw [verLtB_false_iff]
    exact lt_irrefl _
  | cons x rest ih =>
    intro t ht
    simp only [List.foldl_cons]
    by_cases hcx : verLtB c x = true
    · simp only [hcx, if_true]
      rcases List.mem_cons.mp ht with h1 | h23
      · subst h1
        have hfx := ih x x (List.mem_cons_self _ _)
        rw [verLtB_false_iff] at hfx ⊢
        rw [verLtB_true_iff] at hcx
        intro hlt
        exact hfx (lt_trans hlt hcx)
      · exact ih x t h23
    · have hcx' : verLtB c x = false := by simpa using hcx
      simp only [hcx', Bool.false_eq_true, if_false]
      rcases List.mem_cons.mp ht with h1 | h23
      · rw [h1]
        exact ih c c (List.mem_cons_self _ _)
      · rcases List.mem_cons.mp h23 with h2 | h3
        · subst h2
          have hfc := ih c c (List.mem_cons_self _ _)
          rw [verLtB_false_iff] at hfc ⊢
          rw [verLtB_false_iff] at hcx'
          intro hlt
          exact hfc (lt_of_lt_of_le hlt (not_lt.mp hcx'))
        · exact ih c t (List.mem_cons_of_mem _ h3)

/-- Characterization of `highestConstrainedVersion`: a successful result is
a candidate from the tag list ranked at least as high as every candidate;
an empty candidate set is an error. -/
theorem highestConstrainedVersion_spec (tags : List String) (sel : VersionSelection) :
    (∀ v, highestConstrainedVersion tags sel = Except.ok v →
      v ∈ tags ∧ versionCandidate sel v = true ∧
      ∀ t ∈ tags, versionCandidate sel t = true → verLtB v t = false) ∧
    (tags.filter (versionCandidate sel) = [] →
      highestConstrainedVersion tags sel =
        Except.error "Expected to find at least one version, but did not") := by
  constructor
  · intro v hv
    unfold highestConstrainedVersion at hv
    cases hfil : tags.filter (versionCandidate sel) with
    | nil => rw [hfil] at hv; cases hv
    | cons c cs =>
      rw [hfil] at hv
      have hvv : cs.foldl (fun best t => if verLtB best t then t else best) c = v := by
        injection hv
      have hmem : v ∈ c :: cs := hvv ▸ pickHighest_mem cs c
      have hmemf : v ∈ tags.filter (versionCandidate sel) := hfil ▸ hmem
      have hvt := List.mem_filter.mp hmemf
      refine ⟨hvt.1, hvt.2, ?_⟩
      intro t htag hcand
      have htf : t ∈ c :: cs := hfil ▸ List.mem_filter.mpr ⟨htag, hcand⟩
      exact hvv ▸ pickHighest_not_lt cs c t htf
  · intro hfil
    unfold highestConstrainedVersion
    rw [hfil]

/-- C6: ref resolution of the bundle backend. An explicit ref beginning with
`origin/` resolves to the ref with that 7-character marker stripped; any
other explicit ref resolves to itself; with no explicit ref but a selection,
the resolver runs `git tag -l` and returns the highest version label of the
tag list satisfying the constraint (a candidate from the list that no other
candidate exceeds); with neither, it fails. -/
theorem c6_resolve_ref (w : World) (opts : DirectoryContentsGit) (dstPath : String) :
    (opts.Ref.length > 0 → goStartsWith opts.Ref "origin/" = true →
      gitResolveRef w opts dstPath = (Except.ok (goDrop opts.Ref 7), [])) ∧
    (opts.Ref.length > 0 → goStartsWith opts.Ref "origin/" = false →
      gitResolveRef w opts dstPath = (Except.ok opts.Ref, [])) ∧
    (∀ sel out, opts.Ref = "" → opts.RefSelection = some sel →
      w.runCmd ["git", "tag", "-l"] dstPath = Except.ok out →
      gitResolveRef w opts dstPath =
        (highestConstrainedVersion (goSplitNl out) sel,
          [Event.run ["git", "tag", "-l"] dstPath]) ∧
      (∀ v, highestConstrainedVersion (goSplitNl out) sel = Except.ok v →
        v ∈ goSplitNl out ∧ versionCandidate sel v = true ∧
        ∀ t ∈ goSplitNl out, versionCandidate sel t = true → verLtB v t = false)) ∧
    (opts.Ref = "" → opts.RefSelection = none →
      gitResolveRef w opts dstPath =
        (Except.error "Expected either ref or ref selection to be specified", [])) := by
  refine ⟨?_, ?_, ?_, ?_⟩
  · intro hlen hpre
    simp [gitResolveRef, hlen, hpre]
  · intro hlen hpre
    simp [gitResolveRef, hlen, hpre]
  · intro sel out href hsel hcmd
    constructor
    · have hlen : ¬ opts.Ref.length > 0 := by simp [href]
      simp [gitResolveRef, hlen, hsel, gitTags, gitRun, hcmd, mOfExcept]
    · intro v hv
      exact (highestConstrainedVersion_spec (goSplitNl out) sel).1 v hv
  · intro href hsel
    have hlen : ¬ opts.Ref.length > 0 := by simp [href]
    simp [gitResolveRef, hlen, hsel, mErr]

/-- C6 witness: stripping a remote-tracking marker, and the selection case
on the tag list `v1.0.0, v1.2.0, v2.0.0-rc1` with prereleases excluded,
which resolves to `v1.2.0`. -/
theorem c6_witness :
    gitResolveRef (okWorld []) { URL := "u", Ref := "origin/main" } "/d" =
      (Except.ok "main", []) ∧
    gitResolveRef
        { okWorld [] with
          runCmd := fun _ _ => Except.ok "v1.0.0\nv1.2.0\nv2.0.0-rc1" }
        { URL := "u", Ref := "",
          RefSelection := some { accepts := fun _ => true, prereleases := false } } "/d" =
      (Except.ok "v1.2.0", [Event.run ["git", "tag", "-l"] "/d"]) := by
  constructor
  · have h := (c6_resolve_ref (okWorld []) { URL := "u", Ref := "origin/main" } "/d").1
      (by decide) (by decide)
    rw [h]
    rfl
  · have h := ((c6_resolve_ref
        { okWorld [] with
          runCmd := fun _ _ => Except.ok "v1.0.0\nv1.2.0\nv2.0.0-rc1" }
        { URL := "u", Ref := "",
          RefSelection := some { accepts := fun _ => true, prereleases := false } } "/d").2.2.1
      { accepts := fun _ => true, prereleases := false }
      "v1.0.0\nv1.2.0\nv2.0.0-rc1" rfl rfl rfl).1
    rw [h]
    rfl
/-! ## C10: a failing tag listing does not fail the retrieval -/

/-- Result of an error-wrapped computation. -/
@[simp]
theorem wrapErr_fst {α : Type} (pre : String) (m : M α) :
    (wrapErr pre m).1 = (match m.1 with
      | Except.ok a => Except.ok a
      | Except.error e => Except.error (pre ++ e)) := by
  obtain ⟨r, tr⟩ := m
  cases r <;> rfl

/-- An error wrap does not change the trace. -/
@[simp]
theorem wrapErr_snd {α : Type} (pre : String) (m : M α) :
    (wrapErr pre m).2 = m.2 := by
  obtain ⟨r, tr⟩ := m
  cases r <;> rfl

/-- A deferred removal does not change the result. -/
@[simp]
theorem withRemoveAllDeferred_fst {α : Type} (w : World) (d : String) (m : M α) :
    (withRemoveAllDeferred w d m).1 = m.1 := rfl

/-- C10: when the fetch/checkout pipeline succeeds and `rev-parse` and `log`
succeed but `describe --tags` fails, `Retrieve` still succeeds, with an empty
tag list and the revision id and commit title populated. -/
theorem c10_describe_failure_tolerated (w : World) (opts : DirectoryContentsGit)
    (cp : ContentPaths) (dstPath bundle : String) (out1 e out3 : String)
    (hURL : opts.URL.length > 0)
    (hFetch : (gitFetch w opts cp dstPath bundle).1 = Except.ok ())
    (hRev : w.runCmd ["git", "rev-parse", "HEAD"] dstPath = Except.ok out1)
    (hDesc : w.runCmd ["git", "describe", "--tags", goTrim out1] dstPath = Except.error e)
    (hLog : w.runCmd ["git", "log", "-n", "1", "--pretty=%B", goTrim out1] dstPath =
      Except.ok out3) :
    (gitRetrieve w opts cp dstPath bundle).1 =
      Except.ok { SHA := goTrim out1, Tags := [], CommitTitle := goTrim out3 } := by
  have hc : (opts.URL.length == 0) = false := by
    simp only [beq_eq_false_iff_ne, ne_eq]
    omega
  simp [gitRetrieve, hc, hFetch, gitRun, hRev, gitDescribeTags, hDesc, hLog]

/-- A world for the C10 witness: every command succeeds except
`describe --tags`. -/
def c10World : World :=
  { okWorld [] with
    runCmd := fun args _ =>
      if args.take 2 == ["git", "describe"] then Except.error "fatal: no tags"
      else Except.ok "abc123\n" }

/-- C10 witness: the tolerated `describe` failure at a concrete world. -/
theorem c10_witness :
    (gitRetrieve c10World { URL := "https://h/r", Ref := "main" } {} "/w" "").1 =
      Except.ok { SHA := "abc123", Tags := [], CommitTitle := "abc123" } := by
  have h := c10_describe_failure_tolerated c10World { URL := "https://h/r", Ref := "main" }
    {} "/w" "" "abc123\n" "fatal: no tags" "abc123\n" (by decide) rfl rfl rfl rfl
  have ht : goTrim "abc123\n" = "abc123" := by decide
  rw [ht] at h
  exact h

/-! ## C7: username/password auth requires an https remote -/

/-- A computation that runs no external VCS command. -/
def noRuns {α : Type} (m : M α) : Prop := m.2.filter isRunEvent = []

/-- Temp-dir creation is not a process invocation. -/
@[simp]
theorem isRunEvent_newTempDir (a b : String) :
    isRunEvent (Event.newTempDir a b) = false := rfl

/-- A file write is not a process invocation. -/
@[simp]
theorem isRunEvent_fileWrite (a b : String) (m : Nat) :
    isRunEvent (Event.fileWrite a b m) = false := rfl

/-- A directory removal is not a process invocation. -/
@[simp]
theorem isRunEvent_removeAll (a : String) (ok : Bool) :
    isRunEvent (Event.removeAll a ok) = false := rfl

/-- A rename is not a process invocation. -/
@[simp]
theorem isRunEvent_rename (a b : String) (ok : Bool) :
    isRunEvent (Event.rename a b ok) = false := rfl

/-- A command run is a process invocation. -/
@[simp]
theorem isRunEvent_run (a : List String) (d : String) :
    isRunEvent (Event.run a d) = true := rfl

/-- A cache extraction is not a process invocation. -/
@[simp]
theorem isRunEvent_cacheCopyFrom (a b c : String) :
    isRunEvent (Event.cacheCopyFrom a b c) = false := rfl

/-- A cache save is not a process invocation. -/
@[simp]
theorem isRunEvent_cacheSave (a b c : String) :
    isRunEvent (Event.cacheSave a b c) = false := rfl

/-- Sequencing preserves the absence of VCS commands. -/
theorem noRuns_bind {α β : Type} (x : M α) (f : α → M β)
    (hx : noRuns x) (hf : ∀ a, noRuns (f a)) : noRuns (x >>= f) := by
  rw [M_bind_def]
  unfold noRuns at *
  cases hr : x.1 with
  | ok a =>
    simp only
    rw [List.filter_append, hx, hf a]
    rfl
  | error e =>
    simpa using hx

/-- A failing first step also keeps the sequence free of VCS commands. -/
theorem noRuns_bind_err {α β : Type} (x : M α) (f : α → M β) (e : Err)
    (he : x.1 = Except.error e) (hx : noRuns x) : noRuns (x >>= f) := by
  rw [M_bind_def, he]
  exact hx

/-- A deferred removal adds no VCS command. -/
theorem noRuns_withRemoveAllDeferred {α : Type} (w : World) (d : String) (m : M α)
    (hm : noRuns m) : noRuns (withRemoveAllDeferred w d m) := by
  unfold noRuns withRemoveAllDeferred at *
  simp [List.filter_append, hm, isRunEvent]

/-- The git private-key staging succeeds and runs no command when file
writes succeed. -/
theorem gitWritePrivateKey_ok (w : World) (a : GitAuthOpts) (d : String)
    (hw : ∀ q, w.writeFile q = Except.ok ()) :
    (gitWritePrivateKey w a d).1 = Except.ok () ∧ noRuns (gitWritePrivateKey w a d) := by
  cases h : a.PrivateKey <;>
    simp [gitWritePrivateKey, h, wrapErr, opWriteFile, hw, noRuns, isRunEvent]

/-- The git known-hosts staging succeeds and runs no command when file
writes succeed. -/
theorem gitWriteKnownHosts_ok (w : World) (a : GitAuthOpts) (d : String)
    (hw : ∀ q, w.writeFile q = Except.ok ()) :
    (gitWriteKnownHosts w a d).1 = Except.ok () ∧ noRuns (gitWriteKnownHosts w a d) := by
  cases h : a.KnownHosts <;>
    simp [gitWriteKnownHosts, h, wrapErr, opWriteFile, hw, noRuns, isRunEvent]

/-- With username and password present over a non-https remote, the git
fetch body fails with the configuration error before running any command. -/
theorem gitFetchBody_userpass_nonhttps (w : World) (opts : DirectoryContentsGit)
    (cp : ContentPaths) (dstPath bundle : String) (a : GitAuthOpts) (ad u p : String)
    (hu : a.Username = some u) (hp : a.Password = some p)
    (hhttps : goStartsWith opts.URL "https://" = false)
    (hw : ∀ q, w.writeFile q = Except.ok ()) :
    (gitFetchBody w opts cp dstPath bundle a ad).1 =
      Except.error "Username/password authentication is only supported for https remotes" ∧
    noRuns (gitFetchBody w opts cp dstPath bundle a ad) := by
  have hpres : a.IsPresent = true := by
    simp [GitAuthOpts.IsPresent, hu]
  obtain ⟨hk1, hk2⟩ := gitWritePrivateKey_ok w a ad hw
  obtain ⟨hh1, hh2⟩ := gitWriteKnownHosts_ok w a ad hw
  have hcreds : ∀ argss, gitCredsStep w opts a (ad ++ "/.git-credentials") argss =
      (Except.error "Username/password authentication is only supported for https remotes",
        []) := by
    intro argss
    simp [gitCredsStep, hu, hp, hhttps, mErr]
  constructor
  · simp [gitFetchBody, hpres, M_bind_def, hk1, hh1, hcreds]
  · unfold gitFetchBody
    simp only [hpres, if_true]
    apply noRuns_bind _ _ hk2
    intro _
    apply noRuns_bind _ _ hh2
    intro _
    apply noRuns_bind_err _ _
      "Username/password authentication is only supported for https remotes"
    · simp [hcreds]
    · simp [noRuns, hcreds]

/-- C7: for both backends, a secret yielding both a username and a password
over a remote that is not `https://` fails the sync with the configuration
error, and no external VCS command is executed (the trace contains no
process invocation). -/
theorem c7_userpass_requires_https :
    (∀ (w : World) (opts : DirectoryContentsGit) (cp : ContentPaths) (dstPath : String)
      (a : GitAuthOpts) (u p itp ad : String),
      gitGetAuthOpts w.getSecret opts.SecretRef = Except.ok a →
      a.Username = some u → a.Password = some p →
      goStartsWith opts.URL "https://" = false →
      opts.URL.length > 0 →
      w.tempDir "git" = Except.ok itp →
      w.tempDir "git-auth" = Except.ok ad →
      (∀ q, w.writeFile q = Except.ok ()) →
      (gitSync w opts cp dstPath).1 = Except.error
        "Fetching git repository: Username/password authentication is only supported for https remotes" ∧
      (gitSync w opts cp dstPath).2.filter isRunEvent = []) ∧
    (∀ (w : World) (opts : DirectoryContentsHg) (dstPath : String)
      (a : HgAuthOpts) (u p itp ad : String),
      hgGetAuthOpts w.getSecret opts.SecretRef = Except.ok a →
      a.Username = some u → a.Password = some p →
      goStartsWith opts.URL "https://" = false →
      opts.URL.length > 0 →
      w.tempDir "hg" = Except.ok itp →
      w.tempDir "hg-auth" = Except.ok ad →
      (hgSync w opts dstPath).1 = Except.error
        "Setting up hg: Username/password authentication is only supported for https remotes" ∧
      (hgSync w opts dstPath).2.filter isRunEvent = []) := by
  constructor
  · intro w opts cp dstPath a u p itp ad hga hu hp hhttps hURL htd htad hw
    have hc : (opts.URL.length == 0) = false := by
      simp only [beq_eq_false_iff_ne, ne_eq]
      omega
    have hbody := fun bundle =>
      gitFetchBody_userpass_nonhttps w opts cp itp bundle a ad u p hu hp hhttps hw
    have hFetch1 : ∀ bundle, (gitFetch w opts cp itp bundle).1 =
        Except.error "Username/password authentication is only supported for https remotes" := by
      intro bundle
      simp [gitFetch, M_bind_def, mOfExcept, hga, opTempDir, htad, (hbody bundle).1]
    have hFetchR : ∀ bundle, (gitFetch w opts cp itp bundle).2.filter isRunEvent = [] := by
      intro bundle
      have hb2 := (hbody bundle).2
      unfold noRuns at hb2
      simp [gitFetch, M_bind_def, mOfExcept, hga, opTempDir, htad, withRemoveAllDeferred,
        List.filter_append, hb2]
    have hRet1 : ∀ bundle, (gitRetrieve w opts cp itp bundle).1 =
        Except.error "Username/password authentication is only supported for https remotes" := by
      intro bundle
      simp [gitRetrieve, hc, M_bind_def, hFetch1 bundle]
    have hRetR : ∀ bundle, (gitRetrieve w opts cp itp bundle).2.filter isRunEvent = [] := by
      intro bundle
      simp [gitRetrieve, hc, M_bind_def, hFetch1 bundle, hFetchR bundle]
    have hBody1 : (gitSyncBody w opts cp dstPath itp).1 = Except.error
        "Fetching git repository: Username/password authentication is only supported for https remotes" := by
      simp [gitSyncBody, M_bind_def, hRet1]
    have hBodyR : (gitSyncBody w opts cp dstPath itp).2.filter isRunEvent = [] := by
      simp [gitSyncBody, M_bind_def, hRet1, hRetR]
    constructor
    · simp [gitSync, M_bind_def, opTempDir, htd, hBody1]
    · simp [gitSync, M_bind_def, opTempDir, htd, withRemoveAllDeferred,
        List.filter_append, hBodyR]
  · intro w opts dstPath a u p itp ad hga hu hp hhttps hURL htd htad
    have hc : (opts.URL.length == 0) = false := by
      simp only [beq_eq_false_iff_ne, ne_eq]
      omega
    have hrc : ∀ rc, hgAuthRcStep opts a rc =
        (Except.error "Username/password authentication is only supported for https remotes",
          []) := by
      intro rc
      simp [hgAuthRcStep, hu, hp, hhttps, mErr]
    have hSetup1 : (hgSetup w opts).1 =
        Except.error "Username/password authentication is only supported for https remotes" := by
      simp [hgSetup, hc, M_bind_def, mOfExcept, hga, opTempDir, htad, hrc]
    have hSetupR : (hgSetup w opts).2.filter isRunEvent = [] := by
      simp [hgSetup, hc, M_bind_def, mOfExcept, hga, opTempDir, htad, hrc,
        List.filter_append]
    constructor
    · simp [hgSync, M_bind_def, opTempDir, htd, hSetup1]
    · simp [hgSync, M_bind_def, opTempDir, htd, withRemoveAllDeferred,
        List.filter_append, hSetup1, hSetupR]

/-- C7 witness: a concrete source with username/password auth and an
`ssh://` remote fails both syncs with the configuration error and an
empty command trace. -/
theorem c7_witness :
    ((gitSync
        (okWorld [("username", "u"), ("password", "p")])
        { URL := "ssh://host/repo", Ref := "main", SecretRef := some { name := "s" } }
        {} "/dst").1 = Except.error
      "Fetching git repository: Username/password authentication is only supported for https remotes" ∧
    (gitSync
        (okWorld [("username", "u"), ("password", "p")])
        { URL := "ssh://host/repo", Ref := "main", SecretRef := some { name := "s" } }
        {} "/dst").2.filter isRunEvent = []) ∧
    ((hgSync
        (okWorld [("username", "u"), ("password", "p")])
        { URL := "ssh://host/repo", Ref := "tip", SecretRef := some { name := "s" } }
        "/dst").1 = Except.error
      "Setting up hg: Username/password authentication is only supported for https remotes" ∧
    (hgSync
        (okWorld [("username", "u"), ("password", "p")])
        { URL := "ssh://host/repo", Ref := "tip", SecretRef := some { name := "s" } }
        "/dst").2.filter isRunEvent = []) :=
  ⟨c7_userpass_requires_https.1
      (okWorld [("username", "u"), ("password", "p")])
      { URL := "ssh://host/repo", Ref := "main", SecretRef := some { name := "s" } }
      {} "/dst" { Username := some "u", Password := some "p" } "u" "p"
      "/tmp/git" "/tmp/git-auth" rfl rfl rfl (by decide) (by decide)
      rfl rfl (fun _ => rfl),
   c7_userpass_requires_https.2
      (okWorld [("username", "u"), ("password", "p")])
      { URL := "ssh://host/repo", Ref := "tip", SecretRef := some { name := "s" } }
      "/dst" { Username := some "u", Password := some "p" } "u" "p"
      "/tmp/hg" "/tmp/hg-auth" rfl rfl rfl (by decide) (by decide)
      rfl rfl⟩
/-! ## C2: the cache key is the SHA-256 hex digest of the URL alone -/

/-- A 32-bit reduction is below `2^32`. -/
theorem w32_lt (x : Nat) : w32 x < 4294967296 := Nat.mod_lt _ (by decide)

/-- All eight words of a hash state are below `2^32`. -/
def Hash8.Bounded (h : Hash8) : Prop :=
  h.h0 < 4294967296 ∧ h.h1 < 4294967296 ∧ h.h2 < 4294967296 ∧ h.h3 < 4294967296 ∧
  h.h4 < 4294967296 ∧ h.h5 < 4294967296 ∧ h.h6 < 4294967296 ∧ h.h7 < 4294967296

/-- The compression function outputs a bounded state. -/
theorem sha256Compress_bounded (hs : Hash8) (block : List Nat) :
    (sha256Compress hs block).Bounded :=
  ⟨w32_lt _, w32_lt _, w32_lt _, w32_lt _, w32_lt _, w32_lt _, w32_lt _, w32_lt _⟩

/-- Folding compression over any block list preserves boundedness. -/
theorem foldl_compress_bounded (blocks : List (List Nat)) (hs : Hash8) (h : hs.Bounded) :
    (blocks.foldl sha256Compress hs).Bounded := by
  induction blocks generalizing hs with
  | nil => exact h
  | cons b rest ih =>
    rw [List.foldl_cons]
    exact ih (sha256Compress hs b) (sha256Compress_bounded hs b)

/-- The digest word list has exactly eight entries. -/
theorem sha256WordList_length (msg : List Nat) : (sha256WordList msg).length = 8 := rfl

/-- Every digest word is below `2^32`. -/
theorem sha256WordList_bounded (msg : List Nat) :
    ∀ x ∈ sha256WordList msg, x < 4294967296 := by
  have hb := foldl_compress_bounded ((chunks64 (sha256Pad msg)).map wordsOfBlock)
    sha256Init
    ⟨by decide, by decide, by decide, by decide, by decide, by decide, by decide, by decide⟩
  obtain ⟨b0, b1, b2, b3, b4, b5, b6, b7⟩ := hb
  intro x hx
  simp only [sha256WordList, List.mem_cons, List.not_mem_nil, or_false] at hx
  rcases hx with rfl | rfl | rfl | rfl | rfl | rfl | rfl | rfl <;> assumption

/-- The digest words read in radix `2^32`. -/
def wordsToNat (l : List Nat) : Nat := l.foldl (fun a b => a * 4294967296 + b) 0

/-- A bounded-digit radix fold from accumulator `a` stays below
`(a+1) * 2^(32*length)`. -/
theorem foldlRadix_lt (l : List Nat) : ∀ a : Nat, (∀ x ∈ l, x < 4294967296) →
    l.foldl (fun a b => a * 4294967296 + b) a < (a + 1) * 4294967296 ^ l.length := by
  induction l with
  | nil =>
    intro a _
    simpa using Nat.lt_succ_self a
  | cons x t ih =>
    intro a h
    have hx : x < 4294967296 := h x (by simp)
    have ht : ∀ y ∈ t, y < 4294967296 := fun y hy => h y (by simp [hy])
    have h1 := ih (a * 4294967296 + x) ht
    have h2 : (a * 4294967296 + x + 1) * 4294967296 ^ t.length ≤
        ((a + 1) * 4294967296) * 4294967296 ^ t.length := by
      apply Nat.mul_le_mul_right
      omega
    calc t.foldl (fun a b => a * 4294967296 + b) (a * 4294967296 + x)
        < (a * 4294967296 + x + 1) * 4294967296 ^ t.length := h1
      _ ≤ ((a + 1) * 4294967296) * 4294967296 ^ t.length := h2
      _ = (a + 1) * 4294967296 ^ (x :: t).length := by
          rw [List.length_cons, pow_succ]
          ring

/-- A bounded-digit radix fold determines both the accumulator and the
digits (positional-numeral uniqueness). -/
theorem foldlRadix_inj (l1 : List Nat) : ∀ (l2 : List Nat) (a1 a2 : Nat),
    l1.length = l2.length →
    (∀ x ∈ l1, x < 4294967296) → (∀ x ∈ l2, x < 4294967296) →
    l1.foldl (fun a b => a * 4294967296 + b) a1 =
      l2.foldl (fun a b => a * 4294967296 + b) a2 →
    a1 = a2 ∧ l1 = l2 := by
  induction l1 with
  | nil =>
    intro l2 a1 a2 hlen _ _ heq
    cases l2 with
    | nil => exact ⟨heq, rfl⟩
    | cons y s => simp at hlen
  | cons x t ih =>
    intro l2 a1 a2 hlen h1 h2 heq
    cases l2 with
    | nil => simp at hlen
    | cons y s =>
      have hlen' : t.length = s.length := by simpa using hlen
      have hx : x < 4294967296 := h1 x (by simp)
      have hy : y < 4294967296 := h2 y (by simp)
      have ht : ∀ z ∈ t, z < 4294967296 := fun z hz => h1 z (by simp [hz])
      have hs : ∀ z ∈ s, z < 4294967296 := fun z hz => h2 z (by simp [hz])
      obtain ⟨hacc, hts⟩ := ih s (a1 * 4294967296 + x) (a2 * 4294967296 + y) hlen' ht hs
        (by simpa using heq)
      have hxa : a1 = a2 ∧ x = y := by omega
      exact ⟨hxa.1, by rw [hxa.2, hts]⟩

/-- An infinite family of pairwise distinct URLs. -/
def xURL (n : Nat) : String := String.mk (List.replicate n 'x')

/-- The digest of a string as a number below `2^256`. -/
def digestNat (s : String) : Nat := wordsToNat (sha256WordList (utf8Bytes s))

/-- Digests fit in 256 bits. -/
theorem digestNat_lt (s : String) : digestNat s < 4294967296 ^ 8 := by
  have h := foldlRadix_lt (sha256WordList (utf8Bytes s)) 0 (sha256WordList_bounded _)
  rw [sha256WordList_length] at h
  simpa [digestNat, wordsToNat] using h

/-- By pigeonhole, SHA-256 (hence the cache key) collides on some pair of
distinct URLs: infinitely many inputs map into 2^256 digests. -/
theorem sha256hex_exists_collision : ∃ u v : String, u ≠ v ∧ sha256hex u = sha256hex v := by
  obtain ⟨n, m, hne, heq⟩ := Finite.exists_ne_map_eq_of_infinite
    (fun n : ℕ => (⟨digestNat (xURL n), digestNat_lt (xURL n)⟩ : Fin (4294967296 ^ 8)))
  refine ⟨xURL n, xURL m, ?_, ?_⟩
  · intro hcontra
    have hdata : List.replicate n 'x' = List.replicate m 'x' :=
      congrArg String.data hcontra
    have : n = m := by simpa using congrArg List.length hdata
    exact hne this
  · have hdig : digestNat (xURL n) = digestNat (xURL m) := congrArg Fin.val heq
    have hwords := (foldlRadix_inj (sha256WordList (utf8Bytes (xURL n)))
      (sha256WordList (utf8Bytes (xURL m))) 0 0
      (by rw [sha256WordList_length, sha256WordList_length])
      (sha256WordList_bounded _) (sha256WordList_bounded _)
      (by simpa [digestNat, wordsToNat] using hdig)).2
    exact congrArg (fun l => hexEncode ((l.map (beBytes 4)).flatten)) hwords

/-- C2 counterexample: it is not the case that distinct URLs always get
distinct cache ids — SHA-256 maps infinitely many URLs into finitely many
digests, so two distinct URLs share an id. -/
theorem c2_counterexample :
    ¬ (∀ o1 o2 : DirectoryContentsGit, o1.URL ≠ o2.URL →
        gitSyncCacheID o1 ≠ gitSyncCacheID o2) := by
  intro hstrong
  obtain ⟨u, v, hne, heq⟩ := sha256hex_exists_collision
  exact hstrong { URL := u } { URL := v } hne heq

/-- C2 as amended: for both backends the cache id is the SHA-256 hex digest
of the URL alone — deterministic, and independent of ref, ref selection,
auth material and all other flags (two descriptors agreeing on the URL get
the same id, and the hg id set up for a source equals the git id of any
descriptor with the same URL) — but distinctness for distinct URLs holds
only up to SHA-256 collisions, which exist by pigeonhole. -/
theorem c2_amended_cache_key :
    (∀ o1 o2 : DirectoryContentsGit, o1.URL = o2.URL →
      gitSyncCacheID o1 = gitSyncCacheID o2) ∧
    (∀ o : DirectoryContentsGit, gitSyncCacheID o = sha256hex o.URL) ∧
    (∀ (w : World) (o : DirectoryContentsHg) (st : HgState) (tr : List Event),
      hgSetup w o = (Except.ok st, tr) → st.cacheID = sha256hex o.URL) ∧
    (∀ (o1 : DirectoryContentsGit) (o2 : DirectoryContentsHg), o1.URL = o2.URL →
      ∀ (w : World) (st : HgState) (tr : List Event),
        hgSetup w o2 = (Except.ok st, tr) → gitSyncCacheID o1 = st.cacheID) ∧
    (∃ u v : String, u ≠ v ∧ sha256hex u = sha256hex v) := by
  have hsetup : ∀ (w : World) (o : DirectoryContentsHg) (st : HgState) (tr : List Event),
      hgSetup w o = (Except.ok st, tr) → st.cacheID = sha256hex o.URL := by
    intro w o st tr h
    unfold hgSetup at h
    split at h
    · exact Except.noConfusion (congrArg Prod.fst h)
    · simp only [M_bind_def, mOfExcept, opTempDir] at h
      repeat' split at h
      all_goals rw [Prod.mk.injEq] at h
      all_goals obtain ⟨h1, h2⟩ := h
      all_goals first
        | exact Except.noConfusion h1
        | (injection h1 with h3; subst h3; rfl)
  refine ⟨?_, fun _ => rfl, hsetup, ?_, sha256hex_exists_collision⟩
  · intro o1 o2 hurl
    unfold gitSyncCacheID
    rw [hurl]
  · intro o1 o2 hurl w st tr h
    rw [gitSyncCacheID, hurl, hsetup w o2 st tr h]

/-- Concrete descriptors for the C2 witness. -/
def c2url : String := "https://example.com/repo"

/-- A git descriptor over the witness URL. -/
def c2OptsA : DirectoryContentsGit := { URL := c2url, Ref := "main" }

/-- A second git descriptor over the same URL with different ref and flags. -/
def c2OptsB : DirectoryContentsGit :=
  { URL := c2url, Ref := "origin/dev", Depth := 1, SkipInitSubmodules := true }

/-- An hg descriptor over the same URL. -/
def c2OptsHg : DirectoryContentsHg := { URL := c2url, Ref := "tip" }

/-- The hg state produced by setup for that descriptor. -/
def c2HgState : HgState := { authDir := "/tmp/hg-auth", cacheID := hgCacheIDOf c2OptsHg }

/-- C2 witness: two git descriptors differing in ref, depth and flags but
agreeing on the URL share the cache id, and the hg setup over the same URL
computes that same id. -/
theorem c2_witness :
    gitSyncCacheID c2OptsA = gitSyncCacheID c2OptsB ∧
    gitSyncCacheID c2OptsA = c2HgState.cacheID :=
  ⟨c2_amended_cache_key.1 c2OptsA c2OptsB rfl,
   c2_amended_cache_key.2.2.2.1 c2OptsA c2OptsHg rfl (okWorld []) c2HgState
     [Event.newTempDir "hg-auth" "/tmp/hg-auth"] rfl⟩

/-! ## C3: full-clone cache-hit behaviour -/

/-- Only a `run` event can match a command-argument filter. -/
theorem isRunEvent_of_runsArgs (args : List String) (ev : Event)
    (h : runsArgs args ev = true) : isRunEvent ev = true := by
  cases ev <;> simp_all [runsArgs, isRunEvent]

/-- A filter by a stronger predicate of an already-empty filter is empty. -/
theorem filter_nil_mono {α : Type} (q r : α → Bool) (l : List α)
    (himp : ∀ x, q x = true → r x = true) (h : l.filter r = []) : l.filter q = [] := by
  rw [List.filter_eq_nil] at h ⊢
  intro a ha hqa
  exact h a ha (himp a hqa)

/-- Generic sequencing lemma: a trace filter that is empty on both steps is
empty on the sequence. -/
theorem filterNil_bind {α β : Type} (q : Event → Bool) (x : M α) (f : α → M β)
    (hx : x.2.filter q = []) (hf : ∀ a, ((f a).2).filter q = []) :
    ((x >>= f).2).filter q = [] := by
  rw [M_bind_def]
  cases hr : x.1 with
  | ok a =>
    simp only
    rw [List.filter_append, hx, hf a]
    rfl
  | error e => simpa using hx

/-- Directory creation runs no command. -/
theorem opTempDir_no_runs (w : World) (pre : String) :
    (opTempDir w pre).2.filter isRunEvent = [] := by
  unfold opTempDir
  split <;> simp

/-- A file write runs no command. -/
theorem opWriteFile_no_runs (w : World) (p c : String) (m : Nat) :
    (opWriteFile w p c m).2.filter isRunEvent = [] := by
  unfold opWriteFile
  split <;> simp

/-- The hgrc auth section step runs no command. -/
theorem hgAuthRcStep_no_runs (o : DirectoryContentsHg) (a : HgAuthOpts) (rc : String) :
    (hgAuthRcStep o a rc).2.filter isRunEvent = [] := by
  unfold hgAuthRcStep
  repeat' split
  all_goals simp [mErr]

/-- The hg private-key staging runs no command. -/
theorem hgWritePrivateKey_no_runs (w : World) (a : HgAuthOpts) (d : String) :
    (hgWritePrivateKey w a d).2.filter isRunEvent = [] := by
  unfold hgWritePrivateKey
  split
  · rw [wrapErr_snd]
    exact opWriteFile_no_runs w _ _ _
  · simp

/-- The hg known-hosts staging runs no command. -/
theorem hgWriteKnownHosts_no_runs (w : World) (a : HgAuthOpts) (d : String) :
    (hgWriteKnownHosts w a d).2.filter isRunEvent = [] := by
  unfold hgWriteKnownHosts
  split
  · rw [wrapErr_snd]
    exact opWriteFile_no_runs w _ _ _
  · simp

/-- The hgrc ssh section step runs no command. -/
theorem hgSSHSection_no_runs (w : World) (a : HgAuthOpts) (d rc : String) :
    (hgSSHSection w a d rc).2.filter isRunEvent = [] := by
  unfold hgSSHSection
  split
  · apply filterNil_bind _ _ _ (hgWritePrivateKey_no_runs w a d)
    intro _
    apply filterNil_bind _ _ _ (hgWriteKnownHosts_no_runs w a d)
    intro _
    rfl
  · rfl

/-- `hg.setup` never invokes the external engine. -/
theorem hgSetup_no_runs (w : World) (o : DirectoryContentsHg) :
    (hgSetup w o).2.filter isRunEvent = [] := by
  unfold hgSetup
  split
  · simp [mErr]
  · apply filterNil_bind _ _ _ (by simp [mOfExcept] : (mOfExcept
      (hgGetAuthOpts w.getSecret o.SecretRef)).2.filter isRunEvent = [])
    intro a
    apply filterNil_bind _ _ _ (opTempDir_no_runs w "hg-auth")
    intro ad
    apply filterNil_bind _ _ _ (hgAuthRcStep_no_runs o a _)
    intro rc1
    apply filterNil_bind _ _ _ (hgSSHSection_no_runs w a ad rc1)
    intro rc2
    dsimp only
    split
    · apply filterNil_bind
      · rw [wrapErr_snd]
        exact opWriteFile_no_runs w _ _ _
      · intro _
        rfl
    · rfl

/-- The identifier check runs exactly the single `hg id` command. -/
theorem hgCloneHasTargetRef_trace (w : World) (o : DirectoryContentsHg) (p : String) :
    (hgCloneHasTargetRef w o p).2 =
      [Event.run ["hg", "id", "--id", "-r", o.Ref] p] := by
  unfold hgCloneHasTargetRef hgRun
  rcases w.runCmd ["hg", "id", "--id", "-r", o.Ref] p with e | out <;> rfl

/-- An hg command whose argument vector differs from the filtered one
contributes nothing to the filter. -/
theorem hgRun_filter_ne (w : World) (args : List String) (d : String)
    (qargs : List String) (h : (("hg" :: args) == qargs) = false) :
    (hgRun w args d).2.filter (runsArgs qargs) = [] := by
  unfold hgRun
  split <;> simp [runsArgs, h]

/-- `hg.checkout` never runs `hg pull` or `hg init`. -/
theorem hgCheckout_no_pull_init (w : World) (o : DirectoryContentsHg) (d : String) :
    (hgCheckout w o d).2.filter (runsArgs ["hg", "pull"]) = [] ∧
    (hgCheckout w o d).2.filter (runsArgs ["hg", "init"]) = [] := by
  constructor <;>
    (unfold hgCheckout
     apply filterNil_bind _ _ _ (hgRun_filter_ne w _ d _ (by simp))
     intro _
     apply filterNil_bind _ _ _ (hgRun_filter_ne w _ d _ (by simp))
     intro out
     apply filterNil_bind _ _ _ (hgRun_filter_ne w _ d _ (by simp))
     intro out2
     rfl)

/-- The destination-replacement block never runs a command. -/
theorem syncReplaceDest_no_runs (w : World) (d i : String) :
    (syncReplaceDest w d i).2.filter isRunEvent = [] := by
  unfold syncReplaceDest opRemoveAllChecked opRename
  simp only [M_bind_def]
  repeat' split
  all_goals simp [List.filter_append]

/-- The tail of the hg sync body (checkout, lock assembly, destination
replacement) runs neither `hg pull` nor `hg init`. -/
theorem hgSyncBodyRest_no_pull_init (w : World) (o : DirectoryContentsHg)
    (dstPath itp : String) (args : List String)
    (hargs : args = ["hg", "pull"] ∨ args = ["hg", "init"]) :
    ((wrapErr "Checking out hg repository: " (hgCheckout w o itp) >>=
      fun info =>
        syncReplaceDest w dstPath itp >>= fun _ =>
          (pure { SHA := info.SHA,
                  ChangeSetTitle := singleLineChangeSetTitle info.ChangeSetTitle } :
            M LockDirectoryContentsHg)).2).filter (runsArgs args) = [] := by
  apply filterNil_bind
  · rw [wrapErr_snd]
    rcases hargs with rfl | rfl
    · exact (hgCheckout_no_pull_init w o itp).1
    · exact (hgCheckout_no_pull_init w o itp).2
  · intro info
    apply filterNil_bind
    · exact filter_nil_mono _ _ _ (isRunEvent_of_runsArgs args)
        (syncReplaceDest_no_runs w dstPath itp)
    · intro _
      rfl

/-- C3: on a populated full-clone cache, the sync copies the cached clone
into the staging area; the pull is skipped exactly when the cached clone's
identifier check succeeds (the configured ref starts with the revision id
the engine reports for it); otherwise exactly one pull runs — never an
`hg init` — and the updated clone is re-saved under the same cache key. -/
theorem c3_cache_hit_behavior (w : World) (opts : DirectoryContentsHg)
    (dstPath itp : String) (st : HgState) (trS : List Event)
    (cachePath : String) (hasRef : Bool) (outP : String)
    (h1 : w.tempDir "hg" = Except.ok itp)
    (h2 : hgSetup w opts = (Except.ok st, trS))
    (h3 : w.cacheHas "hg" st.cacheID = some cachePath)
    (h4 : w.cacheCopyFrom "hg" st.cacheID itp = Except.ok ())
    (h5 : (hgCloneHasTargetRef w opts cachePath).1 = Except.ok hasRef)
    (h6 : w.runCmd ["hg", "pull"] itp = Except.ok outP)
    (h7 : w.cacheSave "hg" st.cacheID itp = Except.ok ()) :
    Event.cacheCopyFrom "hg" st.cacheID itp ∈ (hgSync w opts dstPath).2 ∧
    countArgs ["hg", "pull"] (hgSync w opts dstPath).2 = (if hasRef then 0 else 1) ∧
    countArgs ["hg", "init"] (hgSync w opts dstPath).2 = 0 ∧
    (hasRef = false → Event.cacheSave "hg" st.cacheID itp ∈ (hgSync w opts dstPath).2) := by
  have h5' : hgCloneHasTargetRef w opts cachePath =
      (Except.ok hasRef, [Event.run ["hg", "id", "--id", "-r", opts.Ref] cachePath]) := by
    have ht := hgCloneHasTargetRef_trace w opts cachePath
    have h5c := h5
    rcases hpair : hgCloneHasTargetRef w opts cachePath with ⟨r, trc⟩
    rw [hpair] at ht h5c
    try rw [hpair]
    rw [Prod.mk.injEq]
    exact ⟨h5c, ht⟩
  have hFS : hgFetchStage w opts itp st =
      (Except.ok (),
        Event.cacheCopyFrom "hg" st.cacheID itp ::
          Event.run ["hg", "id", "--id", "-r", opts.Ref] cachePath ::
          (if hasRef then [] else
            [Event.run ["hg", "pull"] itp, Event.cacheSave "hg" st.cacheID itp])) := by
    cases hasRef with
    | true =>
      simp [hgFetchStage, h3, M_bind_def, wrapErr, opCacheCopyFrom, h4, h5',
        hgSyncClone, hgRun, h6, opCacheSave, h7]
    | false =>
      simp [hgFetchStage, h3, M_bind_def, wrapErr, opCacheCopyFrom, h4, h5',
        hgSyncClone, hgRun, h6, opCacheSave, h7]
  have hT : (hgSync w opts dstPath).2 =
      Event.newTempDir "hg" itp ::
        (trS ++
          (((hgFetchStage w opts itp st).2 ++
            ((wrapErr "Checking out hg repository: " (hgCheckout w opts itp) >>=
              fun info =>
                syncReplaceDest w dstPath itp >>= fun _ =>
                  (pure { SHA := info.SHA,
                          ChangeSetTitle :=
                            singleLineChangeSetTitle info.ChangeSetTitle } :
                    M LockDirectoryContentsHg)).2)) ++
            (if st.authDir != "" then
              [Event.removeAll st.authDir (w.removeAllOk st.authDir)] else []) ++
            [Event.removeAll itp (w.removeAllOk itp)])) := by
    simp [hgSync, hgSyncBody, M_bind_def, opTempDir, h1, wrapErr, h2,
      withHgCloseDeferred, withRemoveAllDeferred, hFS, List.append_assoc]
  refine ⟨?_, ?_, ?_, ?_⟩
  · rw [hT, hFS]
    simp
  · have hrest := hgSyncBodyRest_no_pull_init w opts dstPath itp ["hg", "pull"] (Or.inl rfl)
    have hsetup : List.filter (runsArgs ["hg", "pull"]) trS = [] := by
      have hx := filter_nil_mono (runsArgs ["hg", "pull"]) isRunEvent (hgSetup w opts).2
        (isRunEvent_of_runsArgs _) (hgSetup_no_runs w opts)
      rw [h2] at hx
      simpa using hx
    rw [hT]
    unfold countArgs
    set R := (wrapErr "Checking out hg repository: " (hgCheckout w opts itp) >>=
      fun info =>
        syncReplaceDest w dstPath itp >>= fun _ =>
          (pure { SHA := info.SHA,
                  ChangeSetTitle := singleLineChangeSetTitle info.ChangeSetTitle } :
            M LockDirectoryContentsHg)).2 with hR
    cases hasRef <;>
      (simp [hFS, List.filter_append, hsetup, hrest]
       try (split <;> simp))
  · have hrest := hgSyncBodyRest_no_pull_init w opts dstPath itp ["hg", "init"] (Or.inr rfl)
    have hsetup : List.filter (runsArgs ["hg", "init"]) trS = [] := by
      have hx := filter_nil_mono (runsArgs ["hg", "init"]) isRunEvent (hgSetup w opts).2
        (isRunEvent_of_runsArgs _) (hgSetup_no_runs w opts)
      rw [h2] at hx
      simpa using hx
    rw [hT]
    unfold countArgs
    set R := (wrapErr "Checking out hg repository: " (hgCheckout w opts itp) >>=
      fun info =>
        syncReplaceDest w dstPath itp >>= fun _ =>
          (pure { SHA := info.SHA,
                  ChangeSetTitle := singleLineChangeSetTitle info.ChangeSetTitle } :
            M LockDirectoryContentsHg)).2 with hR
    cases hasRef <;>
      (simp [hFS, List.filter_append, hsetup, hrest]
       try (split <;> simp))
  · intro hfalse
    subst hfalse
    rw [hT, hFS]
    simp
/-- World for the C3 witness: everything succeeds, the engine reports
revision id `z`, and the full-clone cache holds an entry for every key. -/
def c3World : World :=
  { okWorld [] with
      runCmd := fun _ _ => Except.ok "z",
      cacheHas := fun _ _ => some "/cache" }

/-- Descriptor for the C3 witness. -/
def c3Opts : DirectoryContentsHg := { URL := "https://example.com/repo", Ref := "tip" }

/-- The state `hg.setup` computes for the C3 witness descriptor. -/
def c3St : HgState := { authDir := "/tmp/hg-auth", cacheID := hgCacheIDOf c3Opts }

/-- C3 witness: under `c3World` the cached clone lacks the ref (`tip` does
not start with `z`), so the sync copies from the cache, pulls exactly once,
never inits, and re-saves the clone. -/
theorem c3_witness :
    Event.cacheCopyFrom "hg" c3St.cacheID "/tmp/hg" ∈ (hgSync c3World c3Opts "/dst").2 ∧
    countArgs ["hg", "pull"] (hgSync c3World c3Opts "/dst").2 = 1 ∧
    countArgs ["hg", "init"] (hgSync c3World c3Opts "/dst").2 = 0 ∧
    Event.cacheSave "hg" c3St.cacheID "/tmp/hg" ∈ (hgSync c3World c3Opts "/dst").2 := by
  have h := c3_cache_hit_behavior c3World c3Opts "/dst" "/tmp/hg" c3St
    [Event.newTempDir "hg-auth" "/tmp/hg-auth"] "/cache" false "z"
    rfl rfl rfl rfl rfl rfl rfl
  exact ⟨h.1, h.2.1, h.2.2.1, h.2.2.2 rfl⟩
/-! ## C1: destination replacement -/

/-- Fresh temp directories never change the destination. -/
@[simp]
theorem touchesDest_newTempDir (d p q : String) :
    touchesDest d (Event.newTempDir p q) = false := rfl

/-- File writes never change the destination directory entry. -/
@[simp]
theorem touchesDest_fileWrite (d p c : String) (m : Nat) :
    touchesDest d (Event.fileWrite p c m) = false := rfl

/-- Process invocations never change the destination directory entry. -/
@[simp]
theorem touchesDest_run (d : String) (a : List String) (dir : String) :
    touchesDest d (Event.run a dir) = false := rfl

/-- Cache extractions never change the destination directory entry. -/
@[simp]
theorem touchesDest_cacheCopyFrom (d a b c : String) :
    touchesDest d (Event.cacheCopyFrom a b c) = false := rfl

/-- Cache saves never change the destination directory entry. -/
@[simp]
theorem touchesDest_cacheSave (d a b c : String) :
    touchesDest d (Event.cacheSave a b c) = false := rfl

/-- A removal touches the destination exactly when it removes it and
succeeds. -/
@[simp]
theorem touchesDest_removeAll (d p : String) (ok : Bool) :
    touchesDest d (Event.removeAll p ok) = (p == d && ok) := rfl

/-- A rename touches the destination exactly when it lands on it and
succeeds. -/
@[simp]
theorem touchesDest_rename (d s t : String) (ok : Bool) :
    touchesDest d (Event.rename s t ok) = (t == d && ok) := rfl

/-- A trace whose destination-touching filter is empty leaves the
destination in its previous state. -/
theorem mem_of_filter_nil {α : Type} {q : α → Bool} {l : List α}
    (h : l.filter q = []) : ∀ x ∈ l, q x = false := by
  intro x hx
  have := List.filter_eq_nil_iff.mp h x hx
  simpa using this

/-- A trace whose destination-touching filter is empty leaves the
destination in its previous state. -/
theorem destState_of_filter_nil (d : String) (tr : List Event)
    (h : tr.filter (touchesDest d) = []) : destState d tr = .old :=
  destStateFrom_of_no_touch d .old tr (mem_of_filter_nil h)

/-- Splitting a sync trace around its destination-replacement block: the
surrounding parts do not touch the destination, so the final state is
whatever the block produces from the previous content. -/
theorem destState_decomp (d : String) (pre mid post : List Event)
    (hpre : pre.filter (touchesDest d) = [])
    (hpost : post.filter (touchesDest d) = []) :
    destState d (pre ++ mid ++ post) =
      destStateFrom d (destStateFrom d .old mid) post := by
  have h1 : destStateFrom d .old pre = .old :=
    destStateFrom_of_no_touch d .old pre (mem_of_filter_nil hpre)
  rw [destState, destStateFrom_append, destStateFrom_append, h1]

/-- A no-touch tail preserves the state reached by the replacement block. -/
theorem destStateFrom_post_nil (d : String) (s : DirState) (post : List Event)
    (hpost : post.filter (touchesDest d) = []) : destStateFrom d s post = s :=
  destStateFrom_of_no_touch d s post (mem_of_filter_nil hpost)

/-- `mOfExcept` performs no effect. -/
@[simp]
theorem mOfExcept_snd {α : Type} (x : Except Err α) : (mOfExcept x).2 = ([] : List Event) :=
  rfl

/-- A single external run never touches the destination. -/
theorem gitRun_no_touch (d : String) (w : World) (args : List String) (dir : String) :
    (gitRun w args dir).2.filter (touchesDest d) = [] := by
  unfold gitRun
  split <;> rfl

/-- A run sequence never touches the destination. -/
theorem gitRunMultiple_no_touch (d : String) (w : World) (argss : List (List String))
    (dir : String) :
    (gitRunMultiple w argss dir).2.filter (touchesDest d) = [] := by
  induction argss with
  | nil => rfl
  | cons args rest ih =>
    unfold gitRunMultiple
    exact filterNil_bind _ _ _ (gitRun_no_touch d w args dir) (fun _ => ih)

/-- Writing a file never touches the destination. -/
theorem opWriteFile_no_touch (d : String) (w : World) (p c : String) (m : Nat) :
    (opWriteFile w p c m).2.filter (touchesDest d) = [] := by
  unfold opWriteFile
  split <;> rfl

/-- Tag listing never touches the destination. -/
theorem gitTags_no_touch (d : String) (w : World) (dir : String) :
    (gitTags w dir).2.filter (touchesDest d) = [] := by
  unfold gitTags
  exact filterNil_bind _ _ _ (gitRun_no_touch d w _ dir) (fun _ => rfl)

/-- Ref resolution never touches the destination. -/
theorem gitResolveRef_no_touch (d : String) (w : World) (o : DirectoryContentsGit)
    (dir : String) :
    (gitResolveRef w o dir).2.filter (touchesDest d) = [] := by
  unfold gitResolveRef
  repeat' split
  all_goals
    first
      | rfl
      | exact filterNil_bind _ _ _ (gitTags_no_touch d w dir) (fun _ => rfl)

/-- The verification hook never touches the destination. -/
theorem gitVerify_no_touch (d : String) (o : DirectoryContentsGit) (ref : String) :
    (gitVerify o ref).2.filter (touchesDest d) = [] := by
  unfold gitVerify
  split <;> rfl

/-- The credentials step never touches the destination. -/
theorem gitCredsStep_no_touch (d : String) (w : World) (o : DirectoryContentsGit)
    (ao : GitAuthOpts) (p : String) (argss : List (List String)) :
    (gitCredsStep w o ao p argss).2.filter (touchesDest d) = [] := by
  unfold gitCredsStep
  repeat' split
  all_goals
    first
      | rfl
      | exact filterNil_bind _ _ _
          (by rw [wrapErr_snd]; exact opWriteFile_no_touch d w _ _ _) (fun _ => rfl)
      | (dsimp only
         exact filterNil_bind _ _ _
           (by rw [wrapErr_snd]; exact opWriteFile_no_touch d w _ _ _) (fun _ => rfl))

/-- The private-key staging step never touches the destination. -/
theorem gitWritePrivateKey_no_touch (d : String) (w : World) (ao : GitAuthOpts)
    (authDir : String) :
    (gitWritePrivateKey w ao authDir).2.filter (touchesDest d) = [] := by
  unfold gitWritePrivateKey
  split
  · rw [wrapErr_snd]
    exact opWriteFile_no_touch d w _ _ _
  · rfl

/-- The known-hosts staging step never touches the destination. -/
theorem gitWriteKnownHosts_no_touch (d : String) (w : World) (ao : GitAuthOpts)
    (authDir : String) :
    (gitWriteKnownHosts w ao authDir).2.filter (touchesDest d) = [] := by
  unfold gitWriteKnownHosts
  split
  · rw [wrapErr_snd]
    exact opWriteFile_no_touch d w _ _ _
  · rfl

/-- The tag-extraction step never touches the destination. -/
theorem gitDescribeTags_no_touch (d : String) (w : World) (dir sha : String)
    (info : GitInfo) :
    (gitDescribeTags w dir sha info).2.filter (touchesDest d) = [] := by
  unfold gitDescribeTags
  split
  all_goals
    rename_i heq
    have := gitRun_no_touch d w ["describe", "--tags", sha] dir
    rw [heq] at this
    exact this

/-- The body of `Git.fetch` never touches the destination: it only writes
auth files and runs commands. -/
theorem gitFetchBody_no_touch (d : String) (w : World) (o : DirectoryContentsGit)
    (cp : ContentPaths) (dir bundle : String) (ao : GitAuthOpts) (authDir : String) :
    (gitFetchBody w o cp dir bundle ao authDir).2.filter (touchesDest d) = [] := by
  unfold gitFetchBody
  dsimp only
  split
  · apply filterNil_bind
    · exact gitWritePrivateKey_no_touch d w ao authDir
    · intro _
      apply filterNil_bind
      · exact gitWriteKnownHosts_no_touch d w ao authDir
      · intro _
        apply filterNil_bind
        · exact gitCredsStep_no_touch d w o ao _ _
        · intro argss3
          apply filterNil_bind
          · exact gitRunMultiple_no_touch d w _ dir
          · intro _
            apply filterNil_bind
            · exact gitResolveRef_no_touch d w o dir
            · intro ref
              apply filterNil_bind
              · exact gitVerify_no_touch d o ref
              · intro _
                apply filterNil_bind
                · exact gitRun_no_touch d w _ dir
                · intro _
                  split
                  · apply filterNil_bind
                    · exact gitRun_no_touch d w _ dir
                    · intro _
                      rfl
                  · rfl
  · apply filterNil_bind
    · rfl
    · intro _
      apply filterNil_bind
      · exact gitCredsStep_no_touch d w o ao _ _
      · intro argss3
        apply filterNil_bind
        · exact gitRunMultiple_no_touch d w _ dir
        · intro _
          apply filterNil_bind
          · exact gitResolveRef_no_touch d w o dir
          · intro ref
            apply filterNil_bind
            · exact gitVerify_no_touch d o ref
            · intro _
              apply filterNil_bind
              · exact gitRun_no_touch d w _ dir
              · intro _
                split
                · apply filterNil_bind
                  · exact gitRun_no_touch d w _ dir
                  · intro _
                    rfl
                · rfl

/-- `Git.Retrieve` never touches the destination, provided the auth temp
directory the oracle hands out is not the destination. -/
theorem gitRetrieve_no_touch (d : String) (w : World) (o : DirectoryContentsGit)
    (cp : ContentPaths) (dir bundle : String)
    (hAuth : ∀ p, w.tempDir "git-auth" = Except.ok p → (p == d) = false) :
    (gitRetrieve w o cp dir bundle).2.filter (touchesDest d) = [] := by
  unfold gitRetrieve
  split
  · rfl
  · apply filterNil_bind
    · unfold gitFetch
      apply filterNil_bind
      · rfl
      · intro ao
        rw [M_bind_def]
        unfold opTempDir
        rcases hT : w.tempDir "git-auth" with e | p
        · rfl
        · simp only
          rw [List.filter_append]
          have h1 : (withRemoveAllDeferred w p
              (gitFetchBody w o cp dir bundle ao p)).2.filter (touchesDest d) = [] := by
            unfold withRemoveAllDeferred
            simp only [List.filter_append]
            rw [gitFetchBody_no_touch]
            simp [hAuth p hT]
          rw [h1]
          rfl
    · intro _
      apply filterNil_bind
      · exact gitRun_no_touch d w _ dir
      · intro out
        apply filterNil_bind
        · exact gitDescribeTags_no_touch d w dir _ _
        · intro info2
          apply filterNil_bind
          · exact gitRun_no_touch d w _ dir
          · intro _
            rfl

/-- The bundle-save block never touches the destination. -/
theorem gitBundleSaveOps_no_touch (d : String) (w : World)
    (cacheID incomingTmpPath bundleDir : String) :
    (gitBundleSaveOps w cacheID incomingTmpPath bundleDir).2.filter (touchesDest d) = [] := by
  unfold gitBundleSaveOps opCacheSave
  dsimp only
  apply filterNil_bind
  · exact gitRun_no_touch d w _ _
  · intro _
    apply filterNil_bind
    · exact gitRun_no_touch d w _ _
    · intro _
      split <;> rfl

/-- The hgrc auth section step never touches the destination (it performs
no effects at all). -/
theorem hgAuthRcStep_no_touch (d : String) (o : DirectoryContentsHg)
    (ao : HgAuthOpts) (rc : String) :
    (hgAuthRcStep o ao rc).2.filter (touchesDest d) = [] := by
  unfold hgAuthRcStep
  repeat' split
  all_goals rfl

/-- The hg private-key staging step never touches the destination. -/
theorem hgWritePrivateKey_no_touch (d : String) (w : World) (ao : HgAuthOpts)
    (authDir : String) :
    (hgWritePrivateKey w ao authDir).2.filter (touchesDest d) = [] := by
  unfold hgWritePrivateKey
  split
  · rw [wrapErr_snd]
    exact opWriteFile_no_touch d w _ _ _
  · rfl

/-- The hg known-hosts staging step never touches the destination. -/
theorem hgWriteKnownHosts_no_touch (d : String) (w : World) (ao : HgAuthOpts)
    (authDir : String) :
    (hgWriteKnownHosts w ao authDir).2.filter (touchesDest d) = [] := by
  unfold hgWriteKnownHosts
  split
  · rw [wrapErr_snd]
    exact opWriteFile_no_touch d w _ _ _
  · rfl

/-- The ssh section step never touches the destination. -/
theorem hgSSHSection_no_touch (d : String) (w : World) (ao : HgAuthOpts)
    (authDir rc : String) :
    (hgSSHSection w ao authDir rc).2.filter (touchesDest d) = [] := by
  unfold hgSSHSection
  split
  · apply filterNil_bind
    · exact hgWritePrivateKey_no_touch d w ao authDir
    · intro _
      apply filterNil_bind
      · exact hgWriteKnownHosts_no_touch d w ao authDir
      · intro _
        rfl
  · rfl

/-- `hg.setup` never touches the destination: it only creates the auth
temp directory and writes auth files. -/
theorem hgSetup_no_touch (d : String) (w : World) (o : DirectoryContentsHg) :
    (hgSetup w o).2.filter (touchesDest d) = [] := by
  unfold hgSetup
  split
  · rfl
  · apply filterNil_bind
    · rfl
    · intro ao
      apply filterNil_bind
      · unfold opTempDir
        split <;> rfl
      · intro authDir
        apply filterNil_bind
        · exact hgAuthRcStep_no_touch d o ao _
        · intro rc1
          apply filterNil_bind
          · exact hgSSHSection_no_touch d w ao authDir rc1
          · intro rc2
            dsimp only
            split
            · apply filterNil_bind
              · rw [wrapErr_snd]
                exact opWriteFile_no_touch d w _ _ _
              · intro _
                rfl
            · rfl

/-- A single hg invocation never touches the destination. -/
theorem hgRun_no_touch (d : String) (w : World) (args : List String) (dir : String) :
    (hgRun w args dir).2.filter (touchesDest d) = [] := by
  unfold hgRun
  split <;> rfl

/-- Saving to the cache never touches the destination. -/
theorem opCacheSave_no_touch (d : String) (w : World) (a b c : String) :
    (opCacheSave w a b c).2.filter (touchesDest d) = [] := by
  unfold opCacheSave
  split <;> rfl

/-- A pull never touches the destination. -/
theorem hgSyncClone_no_touch (d : String) (w : World) (dir : String) :
    (hgSyncClone w dir).2.filter (touchesDest d) = [] := by
  unfold hgSyncClone
  exact filterNil_bind _ _ _ (hgRun_no_touch d w _ dir) (fun _ => rfl)

/-- Initializing a fresh clone never touches the destination. -/
theorem hgInitClone_no_touch (d : String) (w : World) (o : DirectoryContentsHg)
    (dir : String) :
    (hgInitClone w o dir).2.filter (touchesDest d) = [] := by
  unfold hgInitClone
  apply filterNil_bind
  · exact hgRun_no_touch d w _ dir
  · intro _
    rw [wrapErr_snd]
    exact opWriteFile_no_touch d w _ _ _

/-- A full clone never touches the destination. -/
theorem hgClone_no_touch (d : String) (w : World) (o : DirectoryContentsHg)
    (dir : String) :
    (hgClone w o dir).2.filter (touchesDest d) = [] := by
  unfold hgClone
  exact filterNil_bind _ _ _ (hgInitClone_no_touch d w o dir)
    (fun _ => hgSyncClone_no_touch d w dir)

/-- The identifier check never touches the destination. -/
theorem hgCloneHasTargetRef_no_touch (d : String) (w : World) (o : DirectoryContentsHg)
    (p : String) :
    (hgCloneHasTargetRef w o p).2.filter (touchesDest d) = [] := by
  rw [hgCloneHasTargetRef_trace]
  rfl

/-- The fetch stage of the hg sync never touches the destination: it only
copies from or saves to the cache and runs commands. -/
theorem hgFetchStage_no_touch (d : String) (w : World) (o : DirectoryContentsHg)
    (itp : String) (st : HgState) :
    (hgFetchStage w o itp st).2.filter (touchesDest d) = [] := by
  unfold hgFetchStage
  split
  · apply filterNil_bind
    · rw [wrapErr_snd]
      unfold opCacheCopyFrom
      split <;> rfl
    · intro _
      apply filterNil_bind
      · exact hgCloneHasTargetRef_no_touch d w o _
      · intro hasRef
        split
        · apply filterNil_bind
          · rw [wrapErr_snd]
            exact hgSyncClone_no_touch d w itp
          · intro _
            rw [wrapErr_snd]
            exact opCacheSave_no_touch d w _ _ _
        · rfl
  · apply filterNil_bind
    · rw [wrapErr_snd]
      exact hgClone_no_touch d w o itp
    · intro _
      rw [wrapErr_snd]
      exact opCacheSave_no_touch d w _ _ _

/-- `hg.checkout` never touches the destination. -/
theorem hgCheckout_no_touch (d : String) (w : World) (o : DirectoryContentsHg)
    (dir : String) :
    (hgCheckout w o dir).2.filter (touchesDest d) = [] := by
  unfold hgCheckout hgRun
  simp only [M_bind_def]
  repeat' split
  all_goals simp [List.filter_append]

/-- The auth directory recorded by a successful `hg.setup` is exactly the
temp directory the oracle handed out for the `hg-auth` prefix. -/
theorem hgSetup_ok_authDir (w : World) (o : DirectoryContentsHg) (st : HgState)
    (tr : List Event) (h : hgSetup w o = (Except.ok st, tr)) :
    w.tempDir "hg-auth" = Except.ok st.authDir := by
  unfold hgSetup at h
  split at h
  · exact Except.noConfusion (congrArg Prod.fst h)
  · rcases hA : w.tempDir "hg-auth" with e | p
    all_goals simp only [M_bind_def, mOfExcept, opTempDir, hA] at h
    all_goals repeat' split at h
    all_goals
      first
        | exact Except.noConfusion (congrArg Prod.fst h)
        | (have h1 := congrArg Prod.fst h
           injection h1 with h2
           rw [← h2])

/-- The destination-replacement block itself: on success the destination
holds the new content; on failure it holds the old content (removal failed)
or nothing (removal succeeded, rename failed) — but never a partial mix. -/
theorem syncReplaceDest_dest (w : World) (d i : String) :
    ((syncReplaceDest w d i).1 = Except.ok () →
      destStateFrom d .old (syncReplaceDest w d i).2 = .new) ∧
    (∀ e, (syncReplaceDest w d i).1 = Except.error e →
      destStateFrom d .old (syncReplaceDest w d i).2 = .old ∨
      destStateFrom d .old (syncReplaceDest w d i).2 = .absent) := by
  unfold syncReplaceDest opRemoveAllChecked opRename
  cases hR : w.removeAllOk d with
  | false =>
    refine ⟨fun h => absurd h (by simp), fun e _ => Or.inl ?_⟩
    simp [destStateFrom, destStep]
  | true =>
    cases hN : w.renameOk i d with
    | false =>
      refine ⟨fun h => absurd h (by simp), fun e _ => Or.inr ?_⟩
      simp [destStateFrom, destStep]
    | true =>
      refine ⟨fun _ => ?_, fun e h => absurd h (by simp)⟩
      simp [destStateFrom, destStep]
/-- The all-or-nothing outcome of a computation for destination `d`:
success leaves the new content, failure leaves the old content or an
absent directory — never a partial mix. -/
def DestOutcome (d : String) {α : Type} (m : M α) : Prop :=
  (∀ a, m.1 = Except.ok a → destStateFrom d .old m.2 = .new) ∧
  (∀ e, m.1 = Except.error e →
    destStateFrom d .old m.2 = .old ∨ destStateFrom d .old m.2 = .absent)

/-- Creating a temp directory never touches the destination. -/
theorem opTempDir_no_touch (d : String) (w : World) (pre : String) :
    (opTempDir w pre).2.filter (touchesDest d) = [] := by
  unfold opTempDir
  split <;> rfl

/-- A successful temp-dir creation reflects the oracle's answer. -/
theorem opTempDir_ok (w : World) (pre p : String)
    (h : (opTempDir w pre).1 = Except.ok p) : w.tempDir pre = Except.ok p := by
  unfold opTempDir at h
  split at h
  · exact Except.noConfusion h
  · rename_i q heq
    injection h with h2
    rw [heq, h2]

/-- A successful error-wrapped computation was successful underneath. -/
theorem wrapErr_ok_fst {α : Type} (pre : String) (m : M α) (a : α)
    (h : (wrapErr pre m).1 = Except.ok a) : m.1 = Except.ok a := by
  rw [wrapErr_fst] at h
  cases hm : m.1 with
  | ok b => rw [hm] at h; exact h
  | error e => rw [hm] at h; exact Except.noConfusion h

/-- All-or-nothing composes over sequencing when the first step never
touches the destination. -/
theorem destOutcome_bind {α β : Type} (d : String) (x : M α) (f : α → M β)
    (hx : x.2.filter (touchesDest d) = [])
    (hf : ∀ a, x.1 = Except.ok a → DestOutcome d (f a)) :
    DestOutcome d (x >>= f) := by
  rw [M_bind_def]
  have hxs : destStateFrom d .old x.2 = .old := destStateFrom_post_nil d .old x.2 hx
  cases hr : x.1 with
  | error e =>
    refine ⟨fun a h => absurd h (by simp), fun e' _ => Or.inl ?_⟩
    simpa using hxs
  | ok a =>
    obtain ⟨h1, h2⟩ := hf a hr
    constructor
    · intro b hb
      simp only at hb ⊢
      rw [destStateFrom_append, hxs]
      exact h1 b hb
    · intro e he
      simp only at he ⊢
      rw [destStateFrom_append, hxs]
      exact h2 e he

/-- All-or-nothing survives a deferred removal of a directory other than
the destination. -/
theorem destOutcome_removeAllDeferred {α : Type} (d : String) (w : World) (i : String)
    (m : M α) (hne : (i == d) = false) (hm : DestOutcome d m) :
    DestOutcome d (withRemoveAllDeferred w i m) := by
  obtain ⟨h1, h2⟩ := hm
  have hpost : ∀ s, destStateFrom d s [Event.removeAll i (w.removeAllOk i)] = s := by
    intro s
    apply destStateFrom_post_nil
    simp [hne]
  constructor
  · intro a ha
    rw [withRemoveAllDeferred, destStateFrom_append, hpost]
    exact h1 a ha
  · intro e he
    rw [withRemoveAllDeferred, destStateFrom_append, hpost]
    exact h2 e he

/-- All-or-nothing survives the deferred `hg.Close` when the auth directory
is not the destination. -/
theorem destOutcome_hgClose {α : Type} (d : String) (w : World) (st : HgState)
    (m : M α) (hne : (st.authDir == d) = false) (hm : DestOutcome d m) :
    DestOutcome d (withHgCloseDeferred w st m) := by
  obtain ⟨h1, h2⟩ := hm
  have hpost : ∀ s, destStateFrom d s
      (if st.authDir != "" then
        [Event.removeAll st.authDir (w.removeAllOk st.authDir)] else []) = s := by
    intro s
    apply destStateFrom_post_nil
    split
    · simp [hne]
    · rfl
  constructor
  · intro a ha
    rw [withHgCloseDeferred, destStateFrom_append, hpost]
    exact h1 a ha
  · intro e he
    rw [withHgCloseDeferred, destStateFrom_append, hpost]
    exact h2 e he

/-- The destination-replacement block followed by the lock result is
all-or-nothing. -/
theorem replaceTail_dest {α : Type} (w : World) (d i : String) (lockv : α) :
    DestOutcome d (syncReplaceDest w d i >>= fun _ => (pure lockv : M α)) := by
  rw [M_bind_def]
  obtain ⟨hok, herr⟩ := syncReplaceDest_dest w d i
  cases hr : (syncReplaceDest w d i).1 with
  | error e =>
    refine ⟨fun a h => absurd h (by simp), fun e' _ => ?_⟩
    simpa using herr e hr
  | ok u =>
    cases u
    refine ⟨fun a _ => ?_, fun e he => absurd he (by simp)⟩
    simpa using hok hr

/-- The hg `Sync.Sync` is all-or-nothing at the destination, provided the
temp directories the oracle hands out never coincide with the destination
path. -/
theorem hgSync_dest (w : World) (o : DirectoryContentsHg) (dstPath : String)
    (htmp : ∀ pre p, w.tempDir pre = Except.ok p → p ≠ dstPath) :
    DestOutcome dstPath (hgSync w o dstPath) := by
  unfold hgSync
  apply destOutcome_bind
  · exact opTempDir_no_touch dstPath w "hg"
  · intro itp hitp
    have hne : (itp == dstPath) = false :=
      beq_eq_false_iff_ne.mpr (htmp "hg" itp (opTempDir_ok w "hg" itp hitp))
    apply destOutcome_removeAllDeferred _ _ _ _ hne
    apply destOutcome_bind
    · rw [wrapErr_snd]
      exact hgSetup_no_touch dstPath w o
    · intro st hst
      have hst2 : hgSetup w o = (Except.ok st, (hgSetup w o).2) := by
        rw [← wrapErr_ok_fst "Setting up hg: " (hgSetup w o) st hst]
        exact Prod.mk.eta.symm
      have hAne : (st.authDir == dstPath) = false :=
        beq_eq_false_iff_ne.mpr
          (htmp "hg-auth" st.authDir (hgSetup_ok_authDir w o st _ hst2))
      apply destOutcome_hgClose _ _ _ _ hAne
      unfold hgSyncBody
      apply destOutcome_bind
      · exact hgFetchStage_no_touch dstPath w o itp st
      · intro _ _
        apply destOutcome_bind
        · rw [wrapErr_snd]
          exact hgCheckout_no_touch dstPath w o itp
        · intro info _
          exact replaceTail_dest w dstPath itp _

/-- The git `Sync.Sync` is all-or-nothing at the destination, provided the
temp directories the oracle hands out never coincide with the destination
path. -/
theorem gitSync_dest (w : World) (o : DirectoryContentsGit) (cp : ContentPaths)
    (dstPath : String)
    (htmp : ∀ pre p, w.tempDir pre = Except.ok p → p ≠ dstPath) :
    DestOutcome dstPath (gitSync w o cp dstPath) := by
  unfold gitSync
  apply destOutcome_bind
  · exact opTempDir_no_touch dstPath w "git"
  · intro itp hitp
    have hne : (itp == dstPath) = false :=
      beq_eq_false_iff_ne.mpr (htmp "git" itp (opTempDir_ok w "git" itp hitp))
    apply destOutcome_removeAllDeferred _ _ _ _ hne
    unfold gitSyncBody
    dsimp only
    apply destOutcome_bind
    · rw [wrapErr_snd]
      exact gitRetrieve_no_touch dstPath w o cp itp _
        (fun p hp => beq_eq_false_iff_ne.mpr (htmp "git-auth" p hp))
    · intro info _
      split
      · exact replaceTail_dest w dstPath itp _
      · apply destOutcome_bind
        · exact opTempDir_no_touch dstPath w "bundleCache"
        · intro bundleDir hB
          have hBne : (bundleDir == dstPath) = false :=
            beq_eq_false_iff_ne.mpr
              (htmp "bundleCache" bundleDir (opTempDir_ok w "bundleCache" bundleDir hB))
          apply destOutcome_removeAllDeferred _ _ _ _ hBne
          apply destOutcome_bind
          · exact gitBundleSaveOps_no_touch dstPath w _ itp bundleDir
          · intro _ _
            exact replaceTail_dest w dstPath itp _
/-- World for the C1 counterexample: every operation succeeds except the
final rename onto the destination, and the bundle cache is disabled. -/
def c1FailWorld : World :=
  { okWorld [] with
      renameOk := fun _ _ => false,
      noCache := true }

/-- Git descriptor for C1. -/
def c1OptsGit : DirectoryContentsGit := { URL := "https://example.com/repo", Ref := "main" }

/-- Content paths for C1. -/
def c1Cp : ContentPaths := {}

/-- C1 counterexample: it is not the case that a failed sync always leaves
the destination with its previous content — with the removal succeeding
and the rename failing, the git sync returns an error while the
destination directory is gone. -/
theorem c1_counterexample :
    ¬ ((∀ (w : World) (o : DirectoryContentsHg) (dstPath : String) (e : Err),
          (hgSync w o dstPath).1 = Except.error e →
          destState dstPath (hgSync w o dstPath).2 = .old) ∧
       (∀ (w : World) (o : DirectoryContentsGit) (cp : ContentPaths) (dstPath : String)
          (e : Err),
          (gitSync w o cp dstPath).1 = Except.error e →
          destState dstPath (gitSync w o cp dstPath).2 = .old)) := by
  intro h
  have hres : (gitSync c1FailWorld c1OptsGit c1Cp "/dst").1 =
      Except.error "Moving directory '/tmp/git' to staging dir: rename failed" := rfl
  have habs := h.2 c1FailWorld c1OptsGit c1Cp "/dst" _ hres
  have hgone : destState "/dst" (gitSync c1FailWorld c1OptsGit c1Cp "/dst").2 =
      .absent := rfl
  rw [hgone] at habs
  exact DirState.noConfusion habs

/-- C1 as amended: for both backends the destination replacement is
all-or-nothing up to the removal/rename window, provided the staging temp
directories differ from the destination: a successful sync leaves the new
content, a failed sync leaves the old content or — when the checked removal
succeeded and the rename then failed — no directory at all, never a partial
overlay. -/
theorem c1_amended_all_or_nothing :
    (∀ (w : World) (o : DirectoryContentsHg) (dstPath : String),
      (∀ pre p, w.tempDir pre = Except.ok p → p ≠ dstPath) →
      (∀ lock, (hgSync w o dstPath).1 = Except.ok lock →
        destState dstPath (hgSync w o dstPath).2 = .new) ∧
      (∀ e, (hgSync w o dstPath).1 = Except.error e →
        destState dstPath (hgSync w o dstPath).2 = .old ∨
        destState dstPath (hgSync w o dstPath).2 = .absent)) ∧
    (∀ (w : World) (o : DirectoryContentsGit) (cp : ContentPaths) (dstPath : String),
      (∀ pre p, w.tempDir pre = Except.ok p → p ≠ dstPath) →
      (∀ lock, (gitSync w o cp dstPath).1 = Except.ok lock →
        destState dstPath (gitSync w o cp dstPath).2 = .new) ∧
      (∀ e, (gitSync w o cp dstPath).1 = Except.error e →
        destState dstPath (gitSync w o cp dstPath).2 = .old ∨
        destState dstPath (gitSync w o cp dstPath).2 = .absent)) :=
  ⟨fun w o d ht => hgSync_dest w o d ht, fun w o cp d ht => gitSync_dest w o cp d ht⟩

/-- World for the C1 witness: everything succeeds (bundle cache disabled
to keep the run small). -/
def c1OkWorld : World := { okWorld [] with noCache := true }

/-- Hg descriptor for the C1 witness. -/
def c1OptsHgW : DirectoryContentsHg := { URL := "https://example.com/repo", Ref := "tip" }

/-- The temp directories of `c1OkWorld` are always under `/tmp/` and hence
never the four-character destination `/dst`. -/
theorem c1OkWorld_tmp (pre p : String) (h : c1OkWorld.tempDir pre = Except.ok p) :
    p ≠ "/dst" := by
  injection h with h2
  subst h2
  intro hc
  have hlen := congrArg String.length hc
  rw [String.length_append] at hlen
  have h5 : "/tmp/".length = 5 := rfl
  have h4 : "/dst".length = 4 := rfl
  omega

/-- C1 witness: under the all-success world both backends finish
successfully and leave the destination holding the new content. -/
theorem c1_witness :
    destState "/dst" (hgSync c1OkWorld c1OptsHgW "/dst").2 = .new ∧
    destState "/dst" (gitSync c1OkWorld c1OptsGit c1Cp "/dst").2 = .new := by
  have h := c1_amended_all_or_nothing
  exact ⟨(h.1 c1OkWorld c1OptsHgW "/dst" c1OkWorld_tmp).1 _ rfl,
         (h.2 c1OkWorld c1OptsGit c1Cp "/dst" c1OkWorld_tmp).1 _ rfl⟩
end Vendir
